import Mathlib

/-!
Verification of the quality-profile catalog and candidate selector of the
UTube-Music-Harvester repository.  The definitions below are a shallow
embedding of src/utube/quality.py and of the Streamer selection logic in
src/utube/storage.py: Python dictionaries describing renditions become a
Candidate structure with optional fields, float fields become rationals,
and the in-place stable descending sorts become stable insertion sorts on
the same lexicographic keys.
-/

/-- Minimum requirements for a video stream (quality.py, VideoRequirement). -/
structure VideoRequirement where
  min_height : Nat
  min_fps : Option Nat := none
deriving Repr, DecidableEq

/-- A named quality profile (quality.py, QualityProfile). -/
structure QualityProfile where
  name : String
  audio_thresholds : List Nat
  video_requirements : List VideoRequirement
  preferred_audio_codecs : List String := ["opus", "aac"]
deriving Repr, DecidableEq

/-- Appends an element to the accumulator unless it is already present:
the seen-set plus list-append pattern of quality.py. -/
def dedupAppend (acc : List String) (s : String) : List String :=
  if s ∈ acc then acc else acc ++ [s]

/-- Embedding of the audio_selectors property of QualityProfile
(quality.py lines 26-39). -/
def audioSelectors (p : QualityProfile) : List String :=
  let base := p.audio_thresholds.foldl
    (fun acc t => dedupAppend acc ("bestaudio[abr>=" ++ toString t ++ "]")) []
  ["bestaudio", "bestaudio/best"].foldl dedupAppend base

/-- Embedding of the video_selectors property of QualityProfile
(quality.py lines 41-60); a zero floor is falsy in Python and emits
no bracket segment. -/
def videoSelectors (p : QualityProfile) : List String :=
  let base := p.video_requirements.foldl
    (fun acc r =>
      let s := "bestvideo"
      let s := if r.min_height ≠ 0 then s ++ "[height>=" ++ toString r.min_height ++ "]" else s
      let s := match r.min_fps with
        | some f => if f ≠ 0 then s ++ "[fps>=" ++ toString f ++ "]" else s
        | none => s
      dedupAppend acc s) []
  ["bestvideo", "bestvideo+bestaudio/best"].foldl dedupAppend base

/-- Lower-casing as in Python str.lower, character by character over
the string data. -/
def strLower (s : String) : String := ⟨s.data.map Char.toLower⟩

/-- Prefix test as in Python str.startswith. -/
def strStartsWith (s p : String) : Bool := p.data.isPrefixOf s.data

/-- Whitespace stripping as in Python str.strip. -/
def strTrim (s : String) : String :=
  ⟨((s.data.dropWhile Char.isWhitespace).reverse.dropWhile Char.isWhitespace).reverse⟩

def DEFAULT_PROFILE_NAME : String := "high"

/-- The catalog profile named high. -/
def highProfile : QualityProfile :=
  { name := "high"
    audio_thresholds := [256, 160, 128]
    video_requirements :=
      [⟨1080, some 60⟩, ⟨1080, none⟩, ⟨720, some 60⟩, ⟨720, none⟩] }

/-- The catalog profile named medium. -/
def mediumProfile : QualityProfile :=
  { name := "medium"
    audio_thresholds := [160, 128]
    video_requirements := [⟨720, none⟩, ⟨480, some 60⟩, ⟨480, none⟩] }

/-- The catalog profile named data_saving. -/
def dataSavingProfile : QualityProfile :=
  { name := "data_saving"
    audio_thresholds := [128, 96]
    video_requirements := [⟨480, none⟩, ⟨360, none⟩] }

/-- The fixed three-profile catalog (quality.py, QUALITY_PROFILE_MAP). -/
def QUALITY_PROFILE_MAP : List (String × QualityProfile) :=
  [("high", highProfile), ("medium", mediumProfile), ("data_saving", dataSavingProfile)]

/-- The three catalog profiles as a list, for quantification. -/
def catalogProfiles : List QualityProfile :=
  [highProfile, mediumProfile, dataSavingProfile]

/-- Embedding of get_quality_profile (quality.py lines 100-105): an
absent or empty name becomes the default name, the lookup key is the
lower-cased name, and a missed lookup falls back to the default profile. -/
def getQualityProfile (name : Option String) : QualityProfile :=
  let n := match name with
    | none => DEFAULT_PROFILE_NAME
    | some s => if s = "" then DEFAULT_PROFILE_NAME else s
  (QUALITY_PROFILE_MAP.lookup (strLower n)).getD
    ((QUALITY_PROFILE_MAP.lookup DEFAULT_PROFILE_NAME).getD highProfile)

/-- One rendition descriptor: the fields of the yt-dlp format dictionary
that the Streamer selection logic reads.  Absent dictionary keys are
none; numeric floats are modelled as rationals. -/
structure Candidate where
  url : Option String := none
  ext : Option String := none
  acodec : Option String := none
  vcodec : Option String := none
  height : Option Nat := none
  fps : Option ℚ := none
  abr : Option ℚ := none
  tbr : Option ℚ := none
  format_id : Option String := none
deriving Repr, DecidableEq

/-- Python truthiness of candidate.get with the url key: present and
non-empty. -/
def hasUrlB (c : Candidate) : Bool :=
  match c.url with
  | none => false
  | some s => s ≠ ""

/-- The Prop form of hasUrlB. -/
def hasUrl (c : Candidate) : Prop := hasUrlB c = true

instance (c : Candidate) : Decidable (hasUrl c) := by
  unfold hasUrl; infer_instance

/-- Embedding of the test acodec not in (None, "none"). -/
def audioCapableB (c : Candidate) : Bool :=
  match c.acodec with
  | none => false
  | some s => s ≠ "none"

/-- Embedding of the test vcodec not in (None, "none"). -/
def videoCapableB (c : Candidate) : Bool :=
  match c.vcodec with
  | none => false
  | some s => s ≠ "none"

/-- Both video- and audio-capable, as required of video candidates. -/
def vaCapableB (c : Candidate) : Bool := videoCapableB c && audioCapableB c

/-- Embedding of _video_score (storage.py lines 339-342): height with
absence as zero, then total bitrate with absence as zero. -/
def videoScore (c : Candidate) : Nat × ℚ :=
  (c.height.getD 0, c.tbr.getD 0)

/-- Embedding of _audio_score (storage.py lines 328-331). -/
def audioScore (c : Candidate) : ℚ × ℚ :=
  (c.abr.getD 0, c.tbr.getD 0)

/-- Lexicographic order on Nat-by-rational pairs, the order Python uses
to compare _video_score tuples. -/
def natRatLe (x y : Nat × ℚ) : Prop :=
  x.1 < y.1 ∨ (x.1 = y.1 ∧ x.2 ≤ y.2)

instance (x y : Nat × ℚ) : Decidable (natRatLe x y) := by
  unfold natRatLe; infer_instance

/-- Lexicographic order on rational pairs, the order Python uses to
compare _audio_score tuples. -/
def ratRatLe (x y : ℚ × ℚ) : Prop :=
  x.1 < y.1 ∨ (x.1 = y.1 ∧ x.2 ≤ y.2)

instance (x y : ℚ × ℚ) : Decidable (ratRatLe x y) := by
  unfold ratRatLe; infer_instance

/-- Candidate order realising list.sort with key _video_score and
reverse=True: a candidate may precede another when its score is at
least as large. -/
def videoOrder (a b : Candidate) : Prop := natRatLe (videoScore b) (videoScore a)

instance : DecidableRel videoOrder := by
  unfold videoOrder; infer_instance

/-- Candidate order realising list.sort with key _audio_score and
reverse=True. -/
def audioOrder (a b : Candidate) : Prop := ratRatLe (audioScore b) (audioScore a)

instance : DecidableRel audioOrder := by
  unfold audioOrder; infer_instance

instance : IsTotal Candidate videoOrder := by
  constructor
  intro a b
  unfold videoOrder natRatLe
  rcases Nat.lt_trichotomy (videoScore a).1 (videoScore b).1 with h | h | h
  · exact Or.inr (Or.inl h)
  · rcases le_total (videoScore a).2 (videoScore b).2 with h2 | h2
    · exact Or.inr (Or.inr ⟨h, h2⟩)
    · exact Or.inl (Or.inr ⟨h.symm, h2⟩)
  · exact Or.inl (Or.inl h)

instance : IsTrans Candidate videoOrder := by
  constructor
  intro a b c hab hbc
  unfold videoOrder natRatLe at *
  rcases hab with h1 | ⟨h1, h1'⟩ <;> rcases hbc with h2 | ⟨h2, h2'⟩
  · exact Or.inl (h2.trans h1)
  · exact Or.inl (h2 ▸ h1)
  · exact Or.inl (h1 ▸ h2)
  · exact Or.inr ⟨h2.trans h1, h2'.trans h1'⟩

instance : IsTotal Candidate audioOrder := by
  constructor
  intro a b
  unfold audioOrder ratRatLe
  rcases lt_trichotomy (audioScore a).1 (audioScore b).1 with h | h | h
  · exact Or.inr (Or.inl h)
  · rcases le_total (audioScore a).2 (audioScore b).2 with h2 | h2
    · exact Or.inr (Or.inr ⟨h, h2⟩)
    · exact Or.inl (Or.inr ⟨h.symm, h2⟩)
  · exact Or.inl (Or.inl h)

instance : IsTrans Candidate audioOrder := by
  constructor
  intro a b c hab hbc
  unfold audioOrder ratRatLe at *
  rcases hab with h1 | ⟨h1, h1'⟩ <;> rcases hbc with h2 | ⟨h2, h2'⟩
  · exact Or.inl (h2.trans h1)
  · exact Or.inl (h2 ▸ h1)
  · exact Or.inl (h1 ▸ h2)
  · exact Or.inr ⟨h2.trans h1, h2'.trans h1'⟩

/-- Stable descending sort by _video_score, matching the stable Python
list.sort with reverse=True. -/
def sortByVideoScore (l : List Candidate) : List Candidate :=
  l.insertionSort videoOrder

/-- Stable descending sort by _audio_score. -/
def sortByAudioScore (l : List Candidate) : List Candidate :=
  l.insertionSort audioOrder

/-- The Streamer state read by the selection logic (storage.py lines
129-153): the resolved base profile, the video intent flag, the
normalized video-quality override string, and the raw preferred
container string. -/
structure Streamer where
  profile : QualityProfile
  prefer_video : Bool
  video_quality : String
  preferred_format : Option String
deriving Repr, DecidableEq

/-- Embedding of the Streamer constructor fields relevant to selection:
the profile is resolved through the catalog, the video-quality override
is stripped and lower-cased, the preferred format is stored verbatim. -/
def mkStreamer (prefer_video : Bool) (video_quality : Option String)
    (preferred_format : Option String) (quality_profile : String) : Streamer :=
  { profile := getQualityProfile (some quality_profile)
    prefer_video := prefer_video
    video_quality := strLower (strTrim (video_quality.getD ""))
    preferred_format := preferred_format }

/-- Embedding of _target_video_profile (storage.py lines 252-255). -/
def targetVideoProfile (s : Streamer) : QualityProfile :=
  if s.video_quality ≠ "" then getQualityProfile (some s.video_quality) else s.profile

/-- Embedding of _video_quality_cap (storage.py lines 257-263): with an
override set, the min_height of the first requirement tier whose
min_height is truthy; otherwise no cap. -/
def videoQualityCap (s : Streamer) (p : QualityProfile) : Option Nat :=
  if s.video_quality = "" then none
  else
    match p.video_requirements.find? (fun r => r.min_height ≠ 0) with
    | some r => some r.min_height
    | none => none

/-- Embedding of _within_quality_cap (storage.py lines 277-283): an
absent height is always within the cap. -/
def withinQualityCap (height : Option Nat) (cap : Nat) : Bool :=
  match height with
  | none => true
  | some h => h ≤ cap

/-- Embedding of _apply_quality_cap (storage.py lines 265-275): a falsy
cap filters nothing. -/
def applyQualityCap (cands : List Candidate) (cap : Option Nat) : List Candidate :=
  match cap with
  | none => cands
  | some k =>
    if k = 0 then cands
    else cands.filter (fun c => withinQualityCap c.height k)

/-- Embedding of _meets_video_requirement (storage.py lines 316-326):
height with absence as zero must reach the height floor, and when the
fps floor is truthy the fps with absence as zero must reach it. -/
def meetsVideoRequirement (c : Candidate) (r : VideoRequirement) : Bool :=
  if c.height.getD 0 < r.min_height then false
  else
    match r.min_fps with
    | some f => if f ≠ 0 then decide ((f : ℚ) ≤ c.fps.getD 0) else true
    | none => true

/-- The tier walk of _select_video_candidate (storage.py lines 233-243):
the first requirement tier with a non-empty match set wins, the cap
filter is applied unless it would empty the matches, and the best
candidate by descending video score is returned. -/
def videoTierWalk (cands : List Candidate) (cap : Option Nat) :
    List VideoRequirement → Option Candidate
  | [] => none
  | r :: rest =>
    let ms := cands.filter (fun c => meetsVideoRequirement c r)
    if ms.isEmpty then videoTierWalk cands cap rest
    else
      let filtered := applyQualityCap ms cap
      let selected := if filtered.isEmpty then ms else filtered
      (sortByVideoScore selected).head?

/-- Embedding of _select_video_candidate (storage.py lines 222-250). -/
def selectVideoCandidate (s : Streamer) (formats : List Candidate) : Option Candidate :=
  let videoCandidates := formats.filter vaCapableB
  if videoCandidates.isEmpty then none
  else
    let profile := targetVideoProfile s
    let cap := videoQualityCap s profile
    match videoTierWalk videoCandidates cap profile.video_requirements with
    | some c => some c
    | none =>
      let sorted := sortByVideoScore videoCandidates
      if s.video_quality = "low" then sorted.getLast?
      else if s.video_quality = "medium" then sorted[sorted.length / 2]?
      else sorted.head?

/-- Embedding of the startswith test inside _prefer_audio_codecs: the
candidate codec field with absence as the empty string, lower-cased,
starts with the lower-cased preferred codec. -/
def codecMatches (c : Candidate) (k : String) : Bool :=
  strStartsWith (strLower (c.acodec.getD "")) (strLower k)

/-- The double loop of _prefer_audio_codecs (storage.py lines 309-313):
for each preferred codec in order, the first candidate of the sorted
list whose lower-cased codec starts with it. -/
def findPreferredCodec : List String → List Candidate → Option Candidate
  | [], _ => none
  | k :: rest, sorted =>
    match sorted.find? (fun c => codecMatches c k) with
    | some c => some c
    | none => findPreferredCodec rest sorted

/-- Embedding of _prefer_audio_codecs (storage.py lines 305-314). -/
def preferAudioCodecs (prof : QualityProfile) (cands : List Candidate) : Option Candidate :=
  if cands.isEmpty then none
  else
    let sorted := sortByAudioScore cands
    match findPreferredCodec prof.preferred_audio_codecs sorted with
    | some c => some c
    | none => sorted.head?

/-- The threshold walk of _select_audio_candidate (storage.py lines
294-301): the first threshold whose match set makes the codec
preference step return a candidate wins. -/
def audioThresholdWalk (prof : QualityProfile) (pool : List Candidate) :
    List Nat → Option Candidate
  | [] => none
  | t :: rest =>
    let ms := pool.filter (fun c => decide ((t : ℚ) ≤ c.abr.getD 0))
    match preferAudioCodecs prof ms with
    | some c => some c
    | none => audioThresholdWalk prof pool rest

/-- Embedding of _select_audio_candidate (storage.py lines 285-303). -/
def selectAudioCandidate (prof : QualityProfile) (formats : List Candidate) : Option Candidate :=
  let pool := formats.filter audioCapableB
  if pool.isEmpty then none
  else
    match audioThresholdWalk prof pool prof.audio_thresholds with
    | some c => some c
    | none => preferAudioCodecs prof pool

/-- The container-override branch of _select_format (storage.py lines
194-214).  A none result means the override is unset, empty, or its
filter retained nothing, so selection falls through. -/
def containerPick (s : Streamer) (formats : List Candidate) : Option Candidate :=
  match s.preferred_format with
  | none => none
  | some pf =>
    if pf = "" then none
    else
      let preferredCandidates := formats.filter (fun c => strLower (c.ext.getD "") = pf)
      if preferredCandidates.isEmpty then none
      else
        let fromVideo : Option Candidate :=
          if pf = "mp4" then
            let preferredVideo := preferredCandidates.filter vaCapableB
            if preferredVideo.isEmpty then none
            else (sortByVideoScore preferredVideo).head?
          else none
        match fromVideo with
        | some c => some c
        | none =>
          match preferredCandidates.find? (fun c => c.acodec ≠ some "none") with
          | some c => some c
          | none => preferredCandidates.head?

/-- Embedding of _select_format (storage.py lines 187-220): candidates
without a url are discarded first, then the container override, the
video intent, and finally the audio selection are tried in order. -/
def selectFormat (s : Streamer) (cands : List Candidate) : Option Candidate :=
  let formats := cands.filter hasUrlB
  if formats.isEmpty then none
  else
    match containerPick s formats with
    | some c => some c
    | none =>
      match (if s.prefer_video then selectVideoCandidate s formats else none) with
      | some c => some c
      | none => selectAudioCandidate s.profile formats

/-- The candidate orders are reflexive. -/
lemma videoOrder_refl (c : Candidate) : videoOrder c c :=
  Or.inr ⟨rfl, le_refl _⟩

lemma audioOrder_refl (c : Candidate) : audioOrder c c :=
  Or.inr ⟨rfl, le_refl _⟩

lemma mem_sortByVideoScore {l : List Candidate} {c : Candidate} :
    c ∈ sortByVideoScore l ↔ c ∈ l := List.mem_insertionSort videoOrder

lemma mem_sortByAudioScore {l : List Candidate} {c : Candidate} :
    c ∈ sortByAudioScore l ↔ c ∈ l := List.mem_insertionSort audioOrder

lemma sortByVideoScore_ne_nil {l : List Candidate} (h : l ≠ []) :
    sortByVideoScore l ≠ [] := by
  intro hc
  have hperm := List.perm_insertionSort videoOrder l
  rw [sortByVideoScore] at hc
  rw [hc] at hperm
  exact h hperm.symm.eq_nil

lemma sortByAudioScore_ne_nil {l : List Candidate} (h : l ≠ []) :
    sortByAudioScore l ≠ [] := by
  intro hc
  have hperm := List.perm_insertionSort audioOrder l
  rw [sortByAudioScore] at hc
  rw [hc] at hperm
  exact h hperm.symm.eq_nil

lemma head?_some_of_ne_nil {α : Type} {l : List α} (h : l ≠ []) : ∃ a, l.head? = some a := by
  cases l with
  | nil => exact absurd rfl h
  | cons x xs => exact ⟨x, rfl⟩

/-- The head of the stable descending video sort is a member with
maximal video score. -/
lemma head_sortByVideoScore_max {l : List Candidate} {c : Candidate}
    (h : (sortByVideoScore l).head? = some c) :
    c ∈ l ∧ ∀ x ∈ l, videoOrder c x := by
  have hmem : c ∈ l := mem_sortByVideoScore.mp (List.mem_of_mem_head? h)
  refine ⟨hmem, fun x hx => ?_⟩
  have hsorted : List.Sorted videoOrder (sortByVideoScore l) :=
    List.sorted_insertionSort videoOrder l
  have hx' : x ∈ sortByVideoScore l := mem_sortByVideoScore.mpr hx
  cases hl : sortByVideoScore l with
  | nil => rw [hl] at h; exact absurd h (by simp)
  | cons y ys =>
    rw [hl] at h hx' hsorted
    have hy : y = c := by simpa using h
    subst hy
    rcases List.mem_cons.mp hx' with rfl | hxs
    · exact videoOrder_refl _
    · exact List.rel_of_sorted_cons hsorted x hxs

/-- The head of the stable descending audio sort is a member with
maximal audio score. -/
lemma head_sortByAudioScore_max {l : List Candidate} {c : Candidate}
    (h : (sortByAudioScore l).head? = some c) :
    c ∈ l ∧ ∀ x ∈ l, audioOrder c x := by
  have hmem : c ∈ l := mem_sortByAudioScore.mp (List.mem_of_mem_head? h)
  refine ⟨hmem, fun x hx => ?_⟩
  have hsorted : List.Sorted audioOrder (sortByAudioScore l) :=
    List.sorted_insertionSort audioOrder l
  have hx' : x ∈ sortByAudioScore l := mem_sortByAudioScore.mpr hx
  cases hl : sortByAudioScore l with
  | nil => rw [hl] at h; exact absurd h (by simp)
  | cons y ys =>
    rw [hl] at h hx' hsorted
    have hy : y = c := by simpa using h
    subst hy
    rcases List.mem_cons.mp hx' with rfl | hxs
    · exact audioOrder_refl _
    · exact List.rel_of_sorted_cons hsorted x hxs

/-- Splitting a successful find? at the found element: everything
before it fails the predicate. -/
lemma find?_split {α : Type} (p : α → Bool) :
    ∀ {l : List α} {c : α}, l.find? p = some c →
    ∃ pre post, l = pre ++ c :: post ∧ (∀ x ∈ pre, p x = false) ∧ p c = true := by
  intro l
  induction l with
  | nil => intro c h; simp [List.find?] at h
  | cons a as ih =>
    intro c h
    by_cases hp : p a = true
    · rw [List.find?_cons_of_pos _ hp] at h
      obtain rfl : a = c := by simpa using h
      exact ⟨[], as, rfl, by simp, hp⟩
    · rw [List.find?_cons_of_neg _ hp] at h
      obtain ⟨pre, post, rfl, hpre, hc⟩ := ih h
      exact ⟨a :: pre, post, rfl, by
        intro x hx
        rcases List.mem_cons.mp hx with rfl | hx'
        · exact Bool.eq_false_iff.mpr hp
        · exact hpre x hx', hc⟩

/-- The cap filter only keeps candidates from its input list. -/
lemma applyQualityCap_subset {cands : List Candidate} {cap : Option Nat} {c : Candidate}
    (h : c ∈ applyQualityCap cands cap) : c ∈ cands := by
  cases cap with
  | none => simpa [applyQualityCap] using h
  | some k =>
    by_cases hk : k = 0
    · simpa [applyQualityCap, hk] using h
    · have h' : c ∈ cands.filter (fun x => withinQualityCap x.height k) := by
        simpa [applyQualityCap, hk] using h
      exact (List.mem_filter.mp h').1

/-- The tier walk only returns candidates from its input list. -/
lemma videoTierWalk_mem {cands : List Candidate} {cap : Option Nat} :
    ∀ {reqs : List VideoRequirement} {c : Candidate},
    videoTierWalk cands cap reqs = some c → c ∈ cands := by
  intro reqs
  induction reqs with
  | nil => intro c h; simp [videoTierWalk] at h
  | cons r rest ih =>
    intro c h
    rw [videoTierWalk] at h
    by_cases hm : (cands.filter (fun x => meetsVideoRequirement x r)).isEmpty
    · rw [if_pos hm] at h
      exact ih h
    · rw [if_neg hm] at h
      have hmem := (head_sortByVideoScore_max h).1
      by_cases hf : (applyQualityCap (cands.filter (fun x => meetsVideoRequirement x r)) cap).isEmpty
      · rw [if_pos hf] at hmem
        exact (List.mem_filter.mp hmem).1
      · rw [if_neg hf] at hmem
        exact (List.mem_filter.mp (applyQualityCap_subset hmem)).1

lemma findPreferredCodec_mem :
    ∀ {prefs : List String} {sorted : List Candidate} {c : Candidate},
    findPreferredCodec prefs sorted = some c → c ∈ sorted := by
  intro prefs
  induction prefs with
  | nil => intro sorted c h; simp [findPreferredCodec] at h
  | cons k rest ih =>
    intro sorted c h
    rw [findPreferredCodec] at h
    cases hf : sorted.find? (fun x => codecMatches x k) with
    | some d =>
      rw [hf] at h
      obtain rfl : d = c := by simpa using h
      exact List.mem_of_find?_eq_some hf
    | none =>
      rw [hf] at h
      exact ih h

lemma preferAudioCodecs_mem {prof : QualityProfile} {cands : List Candidate} {c : Candidate}
    (h : preferAudioCodecs prof cands = some c) : c ∈ cands := by
  rw [preferAudioCodecs] at h
  by_cases he : cands.isEmpty
  · rw [if_pos he] at h; simp at h
  · rw [if_neg he] at h
    dsimp only at h
    cases hf : findPreferredCodec prof.preferred_audio_codecs (sortByAudioScore cands) with
    | some d =>
      rw [hf] at h
      obtain rfl : d = c := by simpa using h
      exact mem_sortByAudioScore.mp (findPreferredCodec_mem hf)
    | none =>
      rw [hf] at h
      exact mem_sortByAudioScore.mp (List.mem_of_mem_head? h)

/-- The codec preference step answers exactly when its input is
non-empty. -/
lemma preferAudioCodecs_isSome {prof : QualityProfile} {cands : List Candidate}
    (h : cands ≠ []) : ∃ c, preferAudioCodecs prof cands = some c := by
  rw [preferAudioCodecs]
  rw [if_neg (by simpa [List.isEmpty_iff] using h)]
  dsimp only
  cases hf : findPreferredCodec prof.preferred_audio_codecs (sortByAudioScore cands) with
  | some d => exact ⟨d, rfl⟩
  | none =>
    obtain ⟨a, ha⟩ := head?_some_of_ne_nil (sortByAudioScore_ne_nil h)
    exact ⟨a, ha⟩

lemma preferAudioCodecs_none {prof : QualityProfile} {cands : List Candidate}
    (h : preferAudioCodecs prof cands = none) : cands = [] := by
  by_contra hne
  obtain ⟨c, hc⟩ := @preferAudioCodecs_isSome prof cands hne
  rw [h] at hc
  exact Option.noConfusion hc

lemma audioThresholdWalk_mem {prof : QualityProfile} {pool : List Candidate} :
    ∀ {ts : List Nat} {c : Candidate},
    audioThresholdWalk prof pool ts = some c → c ∈ pool := by
  intro ts
  induction ts with
  | nil => intro c h; simp [audioThresholdWalk] at h
  | cons t rest ih =>
    intro c h
    rw [audioThresholdWalk] at h
    cases hp : preferAudioCodecs prof (pool.filter (fun x => decide ((t : ℚ) ≤ x.abr.getD 0))) with
    | some d =>
      rw [hp] at h
      obtain rfl : d = c := by simpa using h
      exact (List.mem_filter.mp (preferAudioCodecs_mem hp)).1
    | none =>
      rw [hp] at h
      exact ih h

lemma selectAudioCandidate_mem {prof : QualityProfile} {formats : List Candidate} {c : Candidate}
    (h : selectAudioCandidate prof formats = some c) : c ∈ formats ∧ audioCapableB c = true := by
  rw [selectAudioCandidate] at h
  by_cases he : (formats.filter audioCapableB).isEmpty
  · rw [if_pos he] at h; simp at h
  · rw [if_neg he] at h
    have hmem : c ∈ formats.filter audioCapableB := by
      cases hw : audioThresholdWalk prof (formats.filter audioCapableB) prof.audio_thresholds with
      | some d =>
        rw [hw] at h
        obtain rfl : d = c := by simpa using h
        exact audioThresholdWalk_mem hw
      | none =>
        rw [hw] at h
        exact preferAudioCodecs_mem h
    exact List.mem_filter.mp hmem

lemma selectVideoCandidate_mem {s : Streamer} {formats : List Candidate} {c : Candidate}
    (h : selectVideoCandidate s formats = some c) :
    c ∈ formats ∧ vaCapableB c = true := by
  rw [selectVideoCandidate] at h
  by_cases he : (formats.filter vaCapableB).isEmpty
  · rw [if_pos he] at h; simp at h
  · rw [if_neg he] at h
    dsimp only at h
    have hmem : c ∈ formats.filter vaCapableB := by
      cases hw : videoTierWalk (formats.filter vaCapableB)
          (videoQualityCap s (targetVideoProfile s))
          (targetVideoProfile s).video_requirements with
      | some d =>
        rw [hw] at h
        obtain rfl : d = c := by simpa using h
        exact videoTierWalk_mem hw
      | none =>
        rw [hw] at h
        by_cases hl : s.video_quality = "low"
        · rw [if_pos hl] at h
          exact mem_sortByVideoScore.mp (List.mem_of_mem_getLast? h)
        · rw [if_neg hl] at h
          by_cases hm : s.video_quality = "medium"
          · rw [if_pos hm] at h
            have := List.getElem?_eq_some.mp h
            obtain ⟨hlt, rfl⟩ := this
            exact mem_sortByVideoScore.mp (List.getElem_mem hlt)
          · rw [if_neg hm] at h
            exact mem_sortByVideoScore.mp (List.mem_of_mem_head? h)
    exact List.mem_filter.mp hmem

lemma containerPick_mem {s : Streamer} {formats : List Candidate} {c : Candidate}
    (h : containerPick s formats = some c) : c ∈ formats := by
  rw [containerPick] at h
  cases hpf : s.preferred_format with
  | none => rw [hpf] at h; simp at h
  | some pf =>
    rw [hpf] at h
    dsimp only at h
    by_cases hemp : pf = ""
    · rw [if_pos hemp] at h; simp at h
    · rw [if_neg hemp] at h
      by_cases hfe : (formats.filter (fun x => strLower (x.ext.getD "") = pf)).isEmpty
      · rw [if_pos hfe] at h; simp at h
      · rw [if_neg hfe] at h
        set retained := formats.filter (fun x => strLower (x.ext.getD "") = pf) with hret
        have hsub : ∀ x ∈ retained, x ∈ formats := fun x hx => (List.mem_filter.mp hx).1
        by_cases hmp4 : pf = "mp4"
        · rw [if_pos hmp4] at h
          by_cases hve : (retained.filter vaCapableB).isEmpty
          · rw [if_pos hve] at h
            dsimp only at h
            cases hf : retained.find? (fun x => decide (x.acodec ≠ some "none")) with
            | some d =>
              rw [hf] at h
              obtain rfl : d = c := by simpa using h
              exact hsub _ (List.mem_of_find?_eq_some hf)
            | none =>
              rw [hf] at h
              exact hsub _ (List.mem_of_mem_head? h)
          · rw [if_neg hve] at h
            cases hh : (sortByVideoScore (retained.filter vaCapableB)).head? with
            | some d =>
              rw [hh] at h
              obtain rfl : d = c := by simpa using h
              exact hsub _ (List.mem_filter.mp (head_sortByVideoScore_max hh).1).1
            | none =>
              rw [hh] at h
              dsimp only at h
              cases hf : retained.find? (fun x => decide (x.acodec ≠ some "none")) with
              | some d =>
                rw [hf] at h
                obtain rfl : d = c := by simpa using h
                exact hsub _ (List.mem_of_find?_eq_some hf)
              | none =>
                rw [hf] at h
                exact hsub _ (List.mem_of_mem_head? h)
        · rw [if_neg hmp4] at h
          dsimp only at h
          cases hf : retained.find? (fun x => decide (x.acodec ≠ some "none")) with
          | some d =>
            rw [hf] at h
            obtain rfl : d = c := by simpa using h
            exact hsub _ (List.mem_of_find?_eq_some hf)
          | none =>
            rw [hf] at h
            exact hsub _ (List.mem_of_mem_head? h)

/-- Whatever _select_format returns came from the url-bearing input
candidates. -/
lemma selectFormat_mem {s : Streamer} {cands : List Candidate} {c : Candidate}
    (h : selectFormat s cands = some c) : c ∈ cands.filter hasUrlB := by
  rw [selectFormat] at h
  by_cases he : (cands.filter hasUrlB).isEmpty
  · rw [if_pos he] at h; simp at h
  · rw [if_neg he] at h
    cases hc : containerPick s (cands.filter hasUrlB) with
    | some d =>
      rw [hc] at h
      obtain rfl : d = c := by simpa using h
      exact containerPick_mem hc
    | none =>
      rw [hc] at h
      cases hv : (if s.prefer_video then selectVideoCandidate s (cands.filter hasUrlB) else none) with
      | some d =>
        rw [hv] at h
        obtain rfl : d = c := by simpa using h
        by_cases hb : s.prefer_video
        · rw [if_pos hb] at hv
          exact (selectVideoCandidate_mem hv).1
        · rw [if_neg hb] at hv; simp at hv
      | none =>
        rw [hv] at h
        exact (selectAudioCandidate_mem h).1

/-- find? only depends on the pointwise values of the predicate. -/
lemma find?_congr {α : Type} {p q : α → Bool} (h : ∀ a, p a = q a) :
    ∀ l : List α, l.find? p = l.find? q := by
  intro l
  induction l with
  | nil => rfl
  | cons a as ih =>
    by_cases hp : p a = true
    · rw [List.find?_cons_of_pos _ hp, List.find?_cons_of_pos _ ((h a) ▸ hp)]
    · have hp' : p a = false := Bool.eq_false_iff.mpr hp
      rw [List.find?_cons_of_neg _ (by simp [hp']),
        List.find?_cons_of_neg _ (by simp [(h a) ▸ hp'])]
      exact ih

/-- any only depends on membership. -/
lemma any_congr_of_mem_iff {p : Candidate → Bool} {l l' : List Candidate}
    (h : ∀ x, x ∈ l ↔ x ∈ l') : l.any p = l'.any p := by
  apply Bool.coe_iff_coe.mp
  simp only [List.any_eq_true]
  constructor
  · rintro ⟨x, hx, hp⟩; exact ⟨x, (h x).mp hx, hp⟩
  · rintro ⟨x, hx, hp⟩; exact ⟨x, (h x).mpr hx, hp⟩

/-- The codec scan agrees with a find? over the preference list using
an any-match predicate: either both fail, or the first preferred codec
with a match is found and the scan returns the first match for it. -/
lemma findPreferredCodec_find? (sorted : List Candidate) :
    ∀ prefs : List String,
    (findPreferredCodec prefs sorted = none ∧
     prefs.find? (fun k => sorted.any (fun x => codecMatches x k)) = none) ∨
    (∃ k c, findPreferredCodec prefs sorted = some c ∧
       prefs.find? (fun k => sorted.any (fun x => codecMatches x k)) = some k ∧
       sorted.find? (fun x => codecMatches x k) = some c) := by
  intro prefs
  induction prefs with
  | nil => exact Or.inl ⟨rfl, rfl⟩
  | cons k rest ih =>
    cases hf : sorted.find? (fun x => codecMatches x k) with
    | some d =>
      refine Or.inr ⟨k, d, ?_, ?_, hf⟩
      · rw [findPreferredCodec, hf]
      · have hd : codecMatches d k = true := by
          have h2 := List.find?_some hf
          simpa using h2
        have hany : sorted.any (fun x => codecMatches x k) = true :=
          List.any_eq_true.mpr ⟨d, List.mem_of_find?_eq_some hf, hd⟩
        exact List.find?_cons_of_pos _ hany
    | none =>
      have hany : sorted.any (fun x => codecMatches x k) = false := by
        rw [List.find?_eq_none] at hf
        apply Bool.coe_iff_coe.mp
        simp only [List.any_eq_true]
        constructor
        · rintro ⟨x, hx, hp⟩; exact absurd hp (hf x hx)
        · intro hfalse; exact absurd hfalse (by simp)
      have hstep : findPreferredCodec (k :: rest) sorted = findPreferredCodec rest sorted := by
        rw [findPreferredCodec, hf]
      have hfind : (k :: rest).find? (fun k2 => sorted.any (fun x => codecMatches x k2)) =
          rest.find? (fun k2 => sorted.any (fun x => codecMatches x k2)) :=
        List.find?_cons_of_neg _ (by simp [hany])
      rcases ih with ⟨h1, h2⟩ | ⟨k2, c2, h1, h2, h3⟩
      · exact Or.inl ⟨hstep.trans h1, hfind.trans h2⟩
      · exact Or.inr ⟨k2, c2, hstep.trans h1, hfind.trans h2, h3⟩

/-- Specification-side description of the codec-preference sub-step
(spec section 4.2): rank the pool by descending audio score, scan the
preferred codecs in order for the first one matched by some candidate,
and return the best-ranked match for it, or the best-ranked candidate
overall when no preferred codec matches. -/
def specCodecPick (prof : QualityProfile) (pool : List Candidate) (c : Candidate) : Prop :=
  c ∈ pool ∧
  match prof.preferred_audio_codecs.find? (fun k => pool.any (fun x => codecMatches x k)) with
  | some k => codecMatches c k = true ∧
      ∀ x ∈ pool, codecMatches x k = true → audioOrder c x
  | none => ∀ x ∈ pool, audioOrder c x

/-- The result of _prefer_audio_codecs satisfies the specification-side
description of the codec-preference sub-step. -/
lemma preferAudioCodecs_spec {prof : QualityProfile} {cands : List Candidate} {c : Candidate}
    (h : preferAudioCodecs prof cands = some c) : specCodecPick prof cands c := by
  have hmem := preferAudioCodecs_mem h
  have hne : cands ≠ [] := by
    intro hnil
    subst hnil
    simp at hmem
  rw [preferAudioCodecs, if_neg (by simpa [List.isEmpty_iff] using hne)] at h
  dsimp only at h
  refine ⟨hmem, ?_⟩
  have hQP : prof.preferred_audio_codecs.find? (fun k => cands.any (fun x => codecMatches x k)) =
      prof.preferred_audio_codecs.find?
        (fun k => (sortByAudioScore cands).any (fun x => codecMatches x k)) :=
    find?_congr (fun k => any_congr_of_mem_iff (fun x => mem_sortByAudioScore.symm)) _
  rcases findPreferredCodec_find? (sortByAudioScore cands) prof.preferred_audio_codecs with
    ⟨hN, hfN⟩ | ⟨k, d, hS, hfS, hfind⟩
  · rw [hN] at h
    dsimp only at h
    rw [hQP, hfN]
    intro x hx
    exact (head_sortByAudioScore_max h).2 x (by exact hx)
  · rw [hS] at h
    dsimp only at h
    have hdc : d = c := by simpa using h
    subst hdc
    rw [hQP, hfS]
    have hck : codecMatches d k = true := by
      have h2 := List.find?_some hfind
      simpa using h2
    refine ⟨hck, fun x hx hm => ?_⟩
    obtain ⟨pre, post, hsplit, hpre, hpc⟩ := find?_split _ hfind
    have hxs : x ∈ sortByAudioScore cands := mem_sortByAudioScore.mpr hx
    have hsorted : List.Sorted audioOrder (sortByAudioScore cands) :=
      List.sorted_insertionSort audioOrder cands
    rw [hsplit] at hxs hsorted
    rcases List.mem_append.mp hxs with hxp | hxc
    · exact absurd hm (by rw [hpre x hxp]; simp)
    · rcases List.mem_cons.mp hxc with rfl | hxpost
      · exact audioOrder_refl _
      · have hcp : List.Sorted audioOrder (d :: post) :=
          hsorted.sublist (List.sublist_append_right pre (d :: post))
        exact List.rel_of_sorted_cons hcp x hxpost

/-- A successful threshold walk splits the threshold list at the first
threshold whose match set is non-empty, and the result is the codec
preference pick over those matches. -/
lemma audioThresholdWalk_sound {prof : QualityProfile} {pool : List Candidate} :
    ∀ {ts : List Nat} {c : Candidate},
    audioThresholdWalk prof pool ts = some c →
    ∃ (pre : List Nat) (t : Nat) (post : List Nat), ts = pre ++ t :: post ∧
      (∀ t' ∈ pre, pool.filter (fun x => decide ((t' : ℚ) ≤ x.abr.getD 0)) = []) ∧
      preferAudioCodecs prof (pool.filter (fun x => decide ((t : ℚ) ≤ x.abr.getD 0))) = some c := by
  intro ts
  induction ts with
  | nil => intro c h; simp [audioThresholdWalk] at h
  | cons t rest ih =>
    intro c h
    rw [audioThresholdWalk] at h
    cases hp : preferAudioCodecs prof (pool.filter (fun x => decide ((t : ℚ) ≤ x.abr.getD 0))) with
    | some d =>
      rw [hp] at h
      obtain rfl : d = c := by simpa using h
      exact ⟨[], t, rest, rfl, by simp, hp⟩
    | none =>
      rw [hp] at h
      obtain ⟨pre, t2, post, hsplit, hpre, hpick⟩ := ih h
      refine ⟨t :: pre, t2, post, by rw [hsplit]; rfl, ?_, hpick⟩
      intro t' ht'
      rcases List.mem_cons.mp ht' with rfl | ht''
      · exact preferAudioCodecs_none hp
      · exact hpre t' ht''

/-- A failed threshold walk means every threshold has an empty match
set. -/
lemma audioThresholdWalk_none {prof : QualityProfile} {pool : List Candidate} :
    ∀ {ts : List Nat}, audioThresholdWalk prof pool ts = none →
    ∀ t ∈ ts, pool.filter (fun x => decide ((t : ℚ) ≤ x.abr.getD 0)) = [] := by
  intro ts
  induction ts with
  | nil => intro _ t ht; simp at ht
  | cons t rest ih =>
    intro h t' ht'
    rw [audioThresholdWalk] at h
    cases hp : preferAudioCodecs prof (pool.filter (fun x => decide ((t : ℚ) ≤ x.abr.getD 0))) with
    | some d => rw [hp] at h; simp at h
    | none =>
      rw [hp] at h
      rcases List.mem_cons.mp ht' with rfl | ht''
      · exact preferAudioCodecs_none hp
      · exact ih h t' ht''

/-- The set a winning tier ranks: the cap-filtered matches, or the raw
matches when the cap filter would empty them. -/
def capSelected (cands : List Candidate) (cap : Option Nat) (r : VideoRequirement) :
    List Candidate :=
  let ms := cands.filter (fun x => meetsVideoRequirement x r)
  let filtered := applyQualityCap ms cap
  if filtered.isEmpty then ms else filtered

lemma capSelected_ne_nil {cands : List Candidate} {cap : Option Nat} {r : VideoRequirement}
    (hr : cands.filter (fun x => meetsVideoRequirement x r) ≠ []) :
    capSelected cands cap r ≠ [] := by
  unfold capSelected
  by_cases hf : (applyQualityCap (cands.filter (fun x => meetsVideoRequirement x r)) cap).isEmpty
  · rw [if_pos hf]; exact hr
  · rw [if_neg hf]
    intro hc
    exact hf (by rw [hc]; rfl)

/-- The tier walk at the first tier with a non-empty match set: the
winner is the best-scored candidate of the cap-filtered matches, or of
the raw matches when the cap filter empties them. -/
lemma videoTierWalk_first {cands : List Candidate} {cap : Option Nat}
    {r : VideoRequirement} :
    ∀ {pre : List VideoRequirement} {post : List VideoRequirement},
    (∀ r' ∈ pre, cands.filter (fun x => meetsVideoRequirement x r') = []) →
    cands.filter (fun x => meetsVideoRequirement x r) ≠ [] →
    ∃ c, videoTierWalk cands cap (pre ++ r :: post) = some c ∧
      c ∈ capSelected cands cap r ∧
      ∀ x ∈ capSelected cands cap r, videoOrder c x := by
  intro pre
  induction pre with
  | nil =>
    intro post _ hr
    rw [List.nil_append, videoTierWalk]
    rw [if_neg (by simpa [List.isEmpty_iff] using hr)]
    dsimp only
    have hsel : capSelected cands cap r ≠ [] := capSelected_ne_nil hr
    obtain ⟨c, hc⟩ := head?_some_of_ne_nil (sortByVideoScore_ne_nil hsel)
    have hmax := head_sortByVideoScore_max hc
    exact ⟨c, hc, hmax.1, hmax.2⟩
  | cons r' pre' ih =>
    intro post hpre hr
    have hr' : cands.filter (fun x => meetsVideoRequirement x r') = [] :=
      hpre r' (List.mem_cons_self r' pre')
    rw [List.cons_append, videoTierWalk, if_pos (by simp [hr'])]
    exact ih (fun x hx => hpre x (List.mem_cons_of_mem r' hx)) hr

/-- Without a preferred container the override branch yields nothing. -/
lemma containerPick_of_pf_none {s : Streamer} {formats : List Candidate}
    (hpf : s.preferred_format = none) : containerPick s formats = none := by
  rw [containerPick, hpf]

/-- An unset, empty, or unmatched preferred container yields nothing
from the override branch. -/
lemma containerPick_none_of {s : Streamer} {formats : List Candidate}
    (h : ∀ pf, s.preferred_format = some pf → pf ≠ "" →
      formats.filter (fun c => strLower (c.ext.getD "") = pf) = []) :
    containerPick s formats = none := by
  rw [containerPick]
  cases hpf : s.preferred_format with
  | none => rfl
  | some pf =>
    dsimp only
    by_cases hemp : pf = ""
    · rw [if_pos hemp]
    · rw [if_neg hemp]
      rw [if_pos (by simp [h pf hpf hemp])]

/-- A matched preferred container always yields one of the retained
candidates. -/
lemma containerPick_isSome_mem {s : Streamer} {formats : List Candidate} {pf : String}
    (hpf : s.preferred_format = some pf) (hemp : pf ≠ "")
    (hret : formats.filter (fun c => strLower (c.ext.getD "") = pf) ≠ []) :
    ∃ c, containerPick s formats = some c ∧
      c ∈ formats.filter (fun c => strLower (c.ext.getD "") = pf) := by
  rw [containerPick, hpf]
  dsimp only
  rw [if_neg hemp, if_neg (by simpa [List.isEmpty_iff] using hret)]
  set retained := formats.filter (fun c => strLower (c.ext.getD "") = pf) with hretdef
  have harm : ∀ u : Unit,
      (∃ c, (match retained.find? (fun c => decide (c.acodec ≠ some "none")) with
        | some c => some c
        | none => retained.head?) = some c ∧ c ∈ retained) := by
    intro _
    cases hf : retained.find? (fun c => decide (c.acodec ≠ some "none")) with
    | some d => exact ⟨d, rfl, List.mem_of_find?_eq_some hf⟩
    | none =>
      obtain ⟨a, ha⟩ := head?_some_of_ne_nil hret
      exact ⟨a, by rw [ha], List.mem_of_mem_head? ha⟩
  by_cases hmp4 : pf = "mp4"
  · rw [if_pos hmp4]
    by_cases hva : (retained.filter vaCapableB).isEmpty
    · rw [if_pos hva]
      exact harm ()
    · rw [if_neg hva]
      have hvane : retained.filter vaCapableB ≠ [] := by
        intro hc; exact hva (by rw [hc]; rfl)
      obtain ⟨a, ha⟩ := head?_some_of_ne_nil (sortByVideoScore_ne_nil hvane)
      refine ⟨a, ?_, (List.mem_filter.mp (head_sortByVideoScore_max ha).1).1⟩
      rw [ha]
  · rw [if_neg hmp4]
    exact harm ()

/-- When the video-container ranking branch is inapplicable or empty,
the override branch returns the first candidate whose codec field is
not the string none, else the first retained candidate. -/
lemma containerPick_audio_arm {s : Streamer} {formats : List Candidate} {pf : String}
    (hpf : s.preferred_format = some pf) (hemp : pf ≠ "")
    (hret : formats.filter (fun c => strLower (c.ext.getD "") = pf) ≠ [])
    (hva : pf = "mp4" →
      (formats.filter (fun c => strLower (c.ext.getD "") = pf)).filter vaCapableB = []) :
    containerPick s formats =
      match (formats.filter (fun c => strLower (c.ext.getD "") = pf)).find?
          (fun c => decide (c.acodec ≠ some "none")) with
      | some c => some c
      | none => (formats.filter (fun c => strLower (c.ext.getD "") = pf)).head? := by
  rw [containerPick, hpf]
  dsimp only
  rw [if_neg hemp, if_neg (by simpa [List.isEmpty_iff] using hret)]
  by_cases hmp4 : pf = "mp4"
  · rw [if_pos hmp4, if_pos (by simp [hva hmp4])]
  · rw [if_neg hmp4]

/-- The two selection functions after the override branch only read the
profile and video-quality fields. -/
lemma selectVideoCandidate_congr {s s' : Streamer} {formats : List Candidate}
    (h1 : s.profile = s'.profile) (h2 : s.video_quality = s'.video_quality) :
    selectVideoCandidate s formats = selectVideoCandidate s' formats := by
  unfold selectVideoCandidate targetVideoProfile videoQualityCap
  rw [h1, h2]

/-- Unfolding _select_format once the override branch yields nothing. -/
lemma selectFormat_after_container {s : Streamer} {cands : List Candidate}
    (hne : cands.filter hasUrlB ≠ [])
    (hcp : containerPick s (cands.filter hasUrlB) = none) :
    selectFormat s cands =
      match (if s.prefer_video then selectVideoCandidate s (cands.filter hasUrlB) else none) with
      | some c => some c
      | none => selectAudioCandidate s.profile (cands.filter hasUrlB) := by
  rw [selectFormat, if_neg (by simpa [List.isEmpty_iff] using hne)]
  rw [hcp]

/-- Closed form of the catalog lookup. -/
lemma lookup_map_eq (key : String) :
    QUALITY_PROFILE_MAP.lookup key =
      if key = "high" then some highProfile
      else if key = "medium" then some mediumProfile
      else if key = "data_saving" then some dataSavingProfile
      else none := by
  by_cases h1 : key = "high"
  · subst h1; decide
  · by_cases h2 : key = "medium"
    · subst h2; decide
    · by_cases h3 : key = "data_saving"
      · subst h3; decide
      · rw [if_neg h1, if_neg h2, if_neg h3]
        have b1 : (key == ("high" : String)) = false := beq_eq_false_iff_ne.mpr h1
        have b2 : (key == ("medium" : String)) = false := beq_eq_false_iff_ne.mpr h2
        have b3 : (key == ("data_saving" : String)) = false := beq_eq_false_iff_ne.mpr h3
        simp [QUALITY_PROFILE_MAP, List.lookup, b1, b2, b3]

/-- The catalog lookup with default always lands in the catalog. -/
lemma lookup_getD_mem (key : String) :
    (QUALITY_PROFILE_MAP.lookup key).getD
      ((QUALITY_PROFILE_MAP.lookup DEFAULT_PROFILE_NAME).getD highProfile) ∈
      catalogProfiles := by
  have hdef : (QUALITY_PROFILE_MAP.lookup DEFAULT_PROFILE_NAME).getD highProfile =
      highProfile := by decide
  rw [lookup_map_eq key, hdef]
  by_cases h1 : key = "high"
  · simp [h1, catalogProfiles]
  · by_cases h2 : key = "medium"
    · simp [h1, h2, catalogProfiles]
    · by_cases h3 : key = "data_saving"
      · simp [h1, h2, h3, catalogProfiles]
      · simp [h1, h2, h3, catalogProfiles]

/-- Profile resolution always lands in the three-profile catalog. -/
lemma getQualityProfile_mem_catalog (name : Option String) :
    getQualityProfile name ∈ catalogProfiles := by
  unfold getQualityProfile
  exact lookup_getD_mem _

/-- No catalog tier carries a zero fps floor. -/
lemma catalog_no_zero_fps :
    ∀ p ∈ catalogProfiles, ∀ r ∈ p.video_requirements, r.min_fps ≠ some 0 := by decide

/-- Every catalog profile lists its audio thresholds in descending
order. -/
lemma catalog_thresholds_sorted :
    ∀ p ∈ catalogProfiles, List.Pairwise (fun a b => b ≤ a) p.audio_thresholds := by decide

/-- Specification-side wording of the tier matching rule: the height is
at least the floor where an absent height fails any positive floor, and
when an fps floor is set the fps is at least it with an absent fps
failing. -/
def specMeetsTier (c : Candidate) (r : VideoRequirement) : Prop :=
  (match c.height with
   | some h => r.min_height ≤ h
   | none => r.min_height = 0) ∧
  (match r.min_fps, c.fps with
   | some f, some x => (f : ℚ) ≤ x
   | some _, none => False
   | none, _ => True)

instance (c : Candidate) (r : VideoRequirement) : Decidable (specMeetsTier c r) := by
  unfold specMeetsTier
  cases c.height <;> cases r.min_fps <;> cases c.fps <;> exact inferInstance

/-- On tiers without a zero fps floor, the code predicate coincides
with the specification wording. -/
lemma meetsVideoRequirement_iff_spec {c : Candidate} {r : VideoRequirement}
    (hf : r.min_fps ≠ some 0) :
    meetsVideoRequirement c r = true ↔ specMeetsTier c r := by
  unfold meetsVideoRequirement specMeetsTier
  cases hh : c.height with
  | none =>
    cases hfps : r.min_fps with
    | none =>
      by_cases hm : r.min_height = 0
      · simp [hm]
      · simp [Nat.pos_of_ne_zero hm, hm]
    | some f =>
      have hf0 : f ≠ 0 := fun h0 => hf (by rw [hfps, h0])
      by_cases hm : r.min_height = 0
      · cases hx : c.fps with
        | none => simp [hm, hf0, Nat.cast_nonpos]
        | some x => simp [hm, hf0]
      · simp [Nat.pos_of_ne_zero hm, hm]
  | some h =>
    by_cases hht : h < r.min_height
    · simp [hht, Nat.not_le.mpr hht]
    · have hle : r.min_height ≤ h := Nat.not_lt.mp hht
      cases hfps : r.min_fps with
      | none => simp [hht, hle]
      | some f =>
        have hf0 : f ≠ 0 := fun h0 => hf (by rw [hfps, h0])
        cases hx : c.fps with
        | none => simp [hht, hle, hf0, Nat.cast_nonpos]
        | some x => simp [hht, hle, hf0]

/-- Without a cap the ranked set of a winning tier is exactly its match
set. -/
lemma capSelected_no_cap (cands : List Candidate) (r : VideoRequirement) :
    capSelected cands none r = cands.filter (fun x => meetsVideoRequirement x r) := by
  unfold capSelected applyQualityCap
  by_cases h : (cands.filter (fun x => meetsVideoRequirement x r)).isEmpty
  · rw [if_pos h]
  · rw [if_neg h]

/-- A non-empty pool of video-and-audio candidates always produces a
video pick. -/
lemma selectVideoCandidate_isSome {s : Streamer} {formats : List Candidate}
    (h : formats.filter vaCapableB ≠ []) :
    ∃ c, selectVideoCandidate s formats = some c := by
  rw [selectVideoCandidate, if_neg (by simpa [List.isEmpty_iff] using h)]
  dsimp only
  cases hw : videoTierWalk (formats.filter vaCapableB)
      (videoQualityCap s (targetVideoProfile s))
      (targetVideoProfile s).video_requirements with
  | some c => exact ⟨c, rfl⟩
  | none =>
    have hs : sortByVideoScore (formats.filter vaCapableB) ≠ [] :=
      sortByVideoScore_ne_nil h
    by_cases hl : s.video_quality = "low"
    · rw [if_pos hl]
      cases hlast : (sortByVideoScore (formats.filter vaCapableB)).getLast? with
      | some c => exact ⟨c, rfl⟩
      | none => exact absurd (List.getLast?_eq_none_iff.mp hlast) hs
    · rw [if_neg hl]
      by_cases hm : s.video_quality = "medium"
      · rw [if_pos hm]
        have hlen : 0 < (sortByVideoScore (formats.filter vaCapableB)).length :=
          List.length_pos.mpr hs
        have hlt : (sortByVideoScore (formats.filter vaCapableB)).length / 2 <
            (sortByVideoScore (formats.filter vaCapableB)).length :=
          Nat.div_lt_self hlen (by norm_num)
        exact ⟨_, List.getElem?_eq_getElem hlt⟩
      · rw [if_neg hm]
        obtain ⟨c, hc⟩ := head?_some_of_ne_nil hs
        exact ⟨c, hc⟩

/-- The video pick at the first tier whose match set is non-empty. -/
lemma selectVideoCandidate_tier {s : Streamer} {formats : List Candidate}
    {pre post : List VideoRequirement} {r : VideoRequirement}
    (hreq : (targetVideoProfile s).video_requirements = pre ++ r :: post)
    (hpre : ∀ r' ∈ pre,
      (formats.filter vaCapableB).filter (fun x => meetsVideoRequirement x r') = [])
    (hr : (formats.filter vaCapableB).filter (fun x => meetsVideoRequirement x r) ≠ []) :
    ∃ c, selectVideoCandidate s formats = some c ∧
      c ∈ capSelected (formats.filter vaCapableB)
        (videoQualityCap s (targetVideoProfile s)) r ∧
      ∀ x ∈ capSelected (formats.filter vaCapableB)
        (videoQualityCap s (targetVideoProfile s)) r, videoOrder c x := by
  have hva : formats.filter vaCapableB ≠ [] := by
    intro hnil
    rw [hnil] at hr
    simp at hr
  rw [selectVideoCandidate, if_neg (by simpa [List.isEmpty_iff] using hva)]
  dsimp only
  rw [hreq]
  obtain ⟨c, hw, hmem, hmax⟩ := videoTierWalk_first hpre hr
  rw [hw]
  exact ⟨c, rfl, hmem, hmax⟩

/-- Resolution for a non-empty name is a defaulted catalog lookup on
the lower-cased name. -/
lemma getQualityProfile_some_ne {s : String} (hs : s ≠ "") :
    getQualityProfile (some s) =
      (QUALITY_PROFILE_MAP.lookup (strLower s)).getD highProfile := by
  unfold getQualityProfile
  dsimp only
  rw [if_neg hs]
  have hdef : (QUALITY_PROFILE_MAP.lookup DEFAULT_PROFILE_NAME).getD highProfile =
      highProfile := by decide
  rw [hdef]

/-- Claim C8: resolve_profile never fails; for every input name it
returns a catalog profile, the lookup is case-insensitive in the sense
that only the lower-cased name matters, an absent or empty name gives
the default profile named high, and any name whose lower-casing is not
a catalog key also gives that default. -/
theorem c8_resolve_profile_total :
    (∀ name : Option String, getQualityProfile name ∈ catalogProfiles) ∧
    getQualityProfile none = highProfile ∧
    getQualityProfile (some "") = highProfile ∧
    highProfile.name = "high" ∧
    (∀ s : String, strLower s = "high" → getQualityProfile (some s) = highProfile) ∧
    (∀ s : String, strLower s = "medium" → getQualityProfile (some s) = mediumProfile) ∧
    (∀ s : String, strLower s = "data_saving" →
      getQualityProfile (some s) = dataSavingProfile) ∧
    (∀ s : String, strLower s ∉ ["high", "medium", "data_saving"] →
      getQualityProfile (some s) = highProfile) := by
  have hval : ∀ (s : String) (target : String) (p : QualityProfile),
      QUALITY_PROFILE_MAP.lookup target = some p → target ≠ "" →
      strLower s = target → getQualityProfile (some s) = p := by
    intro s target p hp htne hlow
    have hs : s ≠ "" := by
      rintro rfl
      exact htne (by rw [← hlow]; rfl)
    rw [getQualityProfile_some_ne hs, hlow, hp]
    rfl
  refine ⟨getQualityProfile_mem_catalog, by decide, by decide, rfl, ?_, ?_, ?_, ?_⟩
  · intro s h
    exact hval s "high" highProfile (by decide) (by decide) h
  · intro s h
    exact hval s "medium" mediumProfile (by decide) (by decide) h
  · intro s h
    exact hval s "data_saving" dataSavingProfile (by decide) (by decide) h
  · intro s h
    by_cases hs : s = ""
    · subst hs; decide
    · rw [getQualityProfile_some_ne hs, lookup_map_eq]
      simp only [List.mem_cons, List.mem_singleton, not_or] at h
      obtain ⟨h1, h2, h3⟩ := h
      rw [if_neg h1, if_neg h2, if_neg (by simpa using h3)]
      rfl

/-- Witness for claim C8 at concrete names: an upper-cased known name
resolves case-insensitively and an unknown name degrades to the
default. -/
theorem c8_resolve_profile_total_witness :
    strLower "HIGH" = "high" ∧ getQualityProfile (some "HIGH") = highProfile ∧
    strLower "MeDiUm" = "medium" ∧ getQualityProfile (some "MeDiUm") = mediumProfile ∧
    strLower "bogus" ∉ ["high", "medium", "data_saving"] ∧
    getQualityProfile (some "bogus") = highProfile :=
  ⟨by decide, c8_resolve_profile_total.2.2.2.2.1 "HIGH" (by decide),
   by decide, c8_resolve_profile_total.2.2.2.2.2.1 "MeDiUm" (by decide),
   by decide, c8_resolve_profile_total.2.2.2.2.2.2.2 "bogus" (by decide)⟩

/-- Claim C9: for every resolvable profile the audio and video selector
chains have no duplicate expressions and end in the universal fallback;
the concrete chains of the three catalog profiles keep emission order,
one expression per threshold or tier, most selective first, followed by
the fallbacks. -/
theorem c9_selector_chains :
    (∀ name : Option String,
      (audioSelectors (getQualityProfile name)).Nodup ∧
      (audioSelectors (getQualityProfile name)).getLast? = some "bestaudio/best" ∧
      (videoSelectors (getQualityProfile name)).Nodup ∧
      (videoSelectors (getQualityProfile name)).getLast? =
        some "bestvideo+bestaudio/best") ∧
    audioSelectors highProfile =
      ["bestaudio[abr>=256]", "bestaudio[abr>=160]", "bestaudio[abr>=128]",
       "bestaudio", "bestaudio/best"] ∧
    audioSelectors mediumProfile =
      ["bestaudio[abr>=160]", "bestaudio[abr>=128]", "bestaudio", "bestaudio/best"] ∧
    audioSelectors dataSavingProfile =
      ["bestaudio[abr>=128]", "bestaudio[abr>=96]", "bestaudio", "bestaudio/best"] ∧
    videoSelectors highProfile =
      ["bestvideo[height>=1080][fps>=60]", "bestvideo[height>=1080]",
       "bestvideo[height>=720][fps>=60]", "bestvideo[height>=720]",
       "bestvideo", "bestvideo+bestaudio/best"] ∧
    videoSelectors mediumProfile =
      ["bestvideo[height>=720]", "bestvideo[height>=480][fps>=60]",
       "bestvideo[height>=480]", "bestvideo", "bestvideo+bestaudio/best"] ∧
    videoSelectors dataSavingProfile =
      ["bestvideo[height>=480]", "bestvideo[height>=360]",
       "bestvideo", "bestvideo+bestaudio/best"] := by
  refine ⟨?_, by decide, by decide, by decide, by decide, by decide, by decide⟩
  intro name
  have hmem := getQualityProfile_mem_catalog name
  simp only [catalogProfiles, List.mem_cons, List.mem_singleton,
    List.not_mem_nil, or_false] at hmem
  rcases hmem with h | h | h <;> rw [h] <;> exact (by decide)

/-- Claim C10: candidates without a url are discarded before any
selection rule; a list with no url-bearing candidate selects nothing
even if capable candidates are present, and any selected candidate
carries a non-empty url. -/
theorem c10_url_filter (s : Streamer) (cands : List Candidate) :
    ((∀ c ∈ cands, hasUrlB c = false) → selectFormat s cands = none) ∧
    (∀ c, selectFormat s cands = some c →
      c ∈ cands ∧ ∃ u, c.url = some u ∧ u ≠ "") := by
  constructor
  · intro h
    have hnil : cands.filter hasUrlB = [] :=
      List.filter_eq_nil_iff.mpr (fun a ha => by simp [h a ha])
    rw [selectFormat, if_pos (by simp [hnil])]
  · intro c h
    have hmem := selectFormat_mem h
    obtain ⟨h1, h2⟩ := List.mem_filter.mp hmem
    refine ⟨h1, ?_⟩
    unfold hasUrlB at h2
    cases hu : c.url with
    | none => rw [hu] at h2; simp at h2
    | some u =>
      rw [hu] at h2
      simp only [decide_eq_true_eq] at h2
      exact ⟨u, rfl, h2⟩

/-- Witness for claim C10: an audio-capable candidate without a url is
not selected, and a selected candidate carries its non-empty url. -/
theorem c10_url_filter_witness :
    (∀ c ∈ [({ url := none, acodec := some "aac", abr := some 200 } : Candidate)],
      hasUrlB c = false) ∧
    selectFormat (mkStreamer false none none "high")
      [{ url := none, acodec := some "aac", abr := some 200 }] = none ∧
    (selectFormat (mkStreamer false none none "high")
        [({ url := some "u", acodec := some "aac" } : Candidate)] =
      some { url := some "u", acodec := some "aac" } ∧
      ∃ u, ({ url := some "u", acodec := some "aac" } : Candidate).url = some u ∧ u ≠ "") :=
  ⟨by decide,
   (c10_url_filter (mkStreamer false none none "high")
     [{ url := none, acodec := some "aac", abr := some 200 }]).1 (by decide),
   by decide,
   ((c10_url_filter (mkStreamer false none none "high")
     [{ url := some "u", acodec := some "aac" }]).2 _ (by decide)).2⟩

/-- Claim C3, amended: with no container override, whenever some
url-bearing candidate is both video- and audio-capable, selection with
video intent returns a video-capable candidate, never an audio-only
one. -/
theorem c3_video_intent_amended (s : Streamer) (cands : List Candidate)
    (hpf : s.preferred_format = none) (hpv : s.prefer_video = true)
    (h : ∃ c ∈ cands, hasUrl c ∧ vaCapableB c = true) :
    ∃ c, selectFormat s cands = some c ∧ videoCapableB c = true := by
  obtain ⟨w, hw, hwu, hwva⟩ := h
  have hne : cands.filter hasUrlB ≠ [] := by
    intro hnil
    have hmem : w ∈ cands.filter hasUrlB := List.mem_filter.mpr ⟨hw, hwu⟩
    rw [hnil] at hmem
    simp at hmem
  have hva : (cands.filter hasUrlB).filter vaCapableB ≠ [] := by
    intro hnil
    have hmem : w ∈ (cands.filter hasUrlB).filter vaCapableB :=
      List.mem_filter.mpr ⟨List.mem_filter.mpr ⟨hw, hwu⟩, hwva⟩
    rw [hnil] at hmem
    simp at hmem
  obtain ⟨c, hc⟩ := @selectVideoCandidate_isSome s (cands.filter hasUrlB) hva
  have heq := selectFormat_after_container hne (containerPick_of_pf_none hpf)
  rw [hpv] at heq
  simp only [if_true] at heq
  rw [hc] at heq
  refine ⟨c, heq, ?_⟩
  have hcva := (selectVideoCandidate_mem hc).2
  have hsplit : videoCapableB c = true ∧ audioCapableB c = true := by
    simpa [vaCapableB] using hcva
  exact hsplit.1

/-- Witness for claim C3 at a concrete input with one video-and-audio
candidate and one audio-only candidate. -/
theorem c3_video_intent_amended_witness :
    (∃ c ∈ [({ url := some "a", acodec := some "aac", abr := some 300 } : Candidate),
            ({ url := some "v", vcodec := some "avc1", acodec := some "aac", height := some 720 } : Candidate)],
      hasUrl c ∧ vaCapableB c = true) ∧
    (∃ c, selectFormat (mkStreamer true none none "high")
        [({ url := some "a", acodec := some "aac", abr := some 300 } : Candidate),
         ({ url := some "v", vcodec := some "avc1", acodec := some "aac", height := some 720 } : Candidate)] = some c ∧
      videoCapableB c = true) :=
  ⟨by decide,
   c3_video_intent_amended (mkStreamer true none none "high") _ rfl rfl (by decide)⟩

/-- Counterexample to claim C3 as stated: with a container override the
selector returns an audio-only candidate although a url-bearing
video-and-audio candidate is present. -/
theorem c3_video_intent_counterexample :
    (mkStreamer true none (some "mp4") "high").prefer_video = true ∧
    selectFormat (mkStreamer true none (some "mp4") "high")
      [({ url := some "u1", ext := some "mp4", acodec := some "aac" } : Candidate),
       ({ url := some "u2", ext := some "webm", vcodec := some "vp9", acodec := some "opus", height := some 720 } : Candidate)] =
      some { url := some "u1", ext := some "mp4", acodec := some "aac" } ∧
    videoCapableB { url := some "u1", ext := some "mp4", acodec := some "aac" } = false ∧
    hasUrl ({ url := some "u2", ext := some "webm", vcodec := some "vp9", acodec := some "opus", height := some 720 } : Candidate) ∧
    vaCapableB { url := some "u2", ext := some "webm", vcodec := some "vp9", acodec := some "opus", height := some 720 } = true := by decide

/-- Claim C7, amended: selection is total, returning none on an empty
list and a member of the input otherwise; and provided the preferred
container filter retains nothing, a list with no audio-capable and no
video-and-audio-capable candidate selects nothing, for either video
intent. -/
theorem c7_no_candidate_amended (s : Streamer) (cands : List Candidate) :
    (cands = [] → selectFormat s cands = none) ∧
    (∀ c, selectFormat s cands = some c → c ∈ cands) ∧
    ((∀ pf, s.preferred_format = some pf → pf ≠ "" →
        (cands.filter hasUrlB).filter (fun x => strLower (x.ext.getD "") = pf) = []) →
      (∀ c ∈ cands, audioCapableB c = false) →
      (∀ c ∈ cands, vaCapableB c = false) →
      selectFormat s cands = none) := by
  refine ⟨?_, ?_, ?_⟩
  · rintro rfl
    rw [selectFormat]
    simp
  · intro c h
    exact (List.mem_filter.mp (selectFormat_mem h)).1
  · intro hcp hna hnva
    by_cases hfe : cands.filter hasUrlB = []
    · rw [selectFormat, if_pos (by simp [hfe])]
    · rw [selectFormat_after_container hfe (containerPick_none_of hcp)]
      have hvnil : (cands.filter hasUrlB).filter vaCapableB = [] :=
        List.filter_eq_nil_iff.mpr
          (fun a ha => by simp [hnva a (List.mem_filter.mp ha).1])
      have hanil : (cands.filter hasUrlB).filter audioCapableB = [] :=
        List.filter_eq_nil_iff.mpr
          (fun a ha => by simp [hna a (List.mem_filter.mp ha).1])
      have hv : selectVideoCandidate s (cands.filter hasUrlB) = none := by
        rw [selectVideoCandidate, if_pos (by simp [hvnil])]
      have ha : selectAudioCandidate s.profile (cands.filter hasUrlB) = none := by
        rw [selectAudioCandidate, if_pos (by simp [hanil])]
      by_cases hb : s.prefer_video
      · simp only [hb, if_true, hv, ha]
      · simp only [Bool.not_eq_true] at hb
        simp only [hb, Bool.false_eq_true, if_false, ha]

/-- Witness for claim C7: the empty list selects nothing under both
video intents, and so does a url-bearing list with no capable
candidate when no container filter applies. -/
theorem c7_no_candidate_amended_witness :
    selectFormat (mkStreamer true none none "high") [] = none ∧
    selectFormat (mkStreamer false none none "high") [] = none ∧
    selectFormat (mkStreamer false none none "high")
      [({ url := some "u", acodec := some "none", vcodec := some "none" } : Candidate)] =
      none :=
  ⟨(c7_no_candidate_amended (mkStreamer true none none "high") []).1 rfl,
   (c7_no_candidate_amended (mkStreamer false none none "high") []).1 rfl,
   (c7_no_candidate_amended (mkStreamer false none none "high")
      [{ url := some "u", acodec := some "none", vcodec := some "none" }]).2.2
     (by decide) (by decide) (by decide)⟩

/-- Counterexample to claim C7 as stated: with a matching container
override the selector returns a candidate even though the list has no
audio-capable and no video-and-audio-capable entry, where the claim
demands the no-candidate signal. -/
theorem c7_no_candidate_counterexample :
    selectFormat (mkStreamer false none (some "mp4") "high")
      [({ url := some "u", ext := some "mp4", acodec := some "none", vcodec := some "none" } : Candidate)] =
      some { url := some "u", ext := some "mp4", acodec := some "none", vcodec := some "none" } ∧
    audioCapableB { url := some "u", ext := some "mp4", acodec := some "none", vcodec := some "none" } = false ∧
    vaCapableB { url := some "u", ext := some "mp4", acodec := some "none", vcodec := some "none" } = false := by decide

/-- Claim C4, amended: the container filter retains exactly the
url-bearing candidates whose lower-cased container extension equals the
override string verbatim (case folding happens only on the candidate
side); an empty retained set makes selection behave as if no override
had been given, and a non-empty retained set always yields one of its
members. -/
theorem c4_container_filter_amended (s : Streamer) (cands : List Candidate) (pf : String)
    (hpf : s.preferred_format = some pf) (hemp : pf ≠ "") :
    (∀ c, c ∈ (cands.filter hasUrlB).filter (fun x => strLower (x.ext.getD "") = pf) ↔
      c ∈ cands ∧ hasUrl c ∧ strLower (c.ext.getD "") = pf) ∧
    ((cands.filter hasUrlB).filter (fun x => strLower (x.ext.getD "") = pf) = [] →
      selectFormat s cands = selectFormat { s with preferred_format := none } cands) ∧
    ((cands.filter hasUrlB).filter (fun x => strLower (x.ext.getD "") = pf) ≠ [] →
      ∃ c, selectFormat s cands = some c ∧
        c ∈ (cands.filter hasUrlB).filter (fun x => strLower (x.ext.getD "") = pf)) := by
  refine ⟨?_, ?_, ?_⟩
  · intro c
    simp only [List.mem_filter, hasUrl, decide_eq_true_eq, and_assoc]
  · intro hret
    by_cases hfe : cands.filter hasUrlB = []
    · rw [selectFormat, if_pos (by simp [hfe]), selectFormat, if_pos (by simp [hfe])]
    · have h1 := @selectFormat_after_container s cands hfe
        (containerPick_none_of (fun pf' hpf' hemp' => by
          rw [hpf] at hpf'
          obtain rfl : pf = pf' := by simpa using hpf'
          exact hret))
      have h2 := @selectFormat_after_container { s with preferred_format := none } cands
        hfe (containerPick_of_pf_none rfl)
      rw [h1, h2]
      rw [@selectVideoCandidate_congr s { s with preferred_format := none }
        (cands.filter hasUrlB) rfl rfl]
  · intro hret
    obtain ⟨c, hcp, hcm⟩ := containerPick_isSome_mem hpf hemp hret
    refine ⟨c, ?_, hcm⟩
    have hfe : cands.filter hasUrlB ≠ [] := by
      intro hnil
      rw [hnil] at hret
      simp at hret
    rw [selectFormat, if_neg (by simpa [List.isEmpty_iff] using hfe)]
    rw [hcp]

/-- Witness for claim C4 at a concrete input: a lower-case mp4 override
retains the mp4 candidate and selection returns it. -/
theorem c4_container_filter_amended_witness :
    (({ url := some "u2", ext := some "mp4", acodec := some "aac", abr := some 10 } : Candidate) ∈
      ([({ url := some "u1", ext := some "webm", acodec := some "opus", abr := some 300 } : Candidate),
        ({ url := some "u2", ext := some "mp4", acodec := some "aac", abr := some 10 } : Candidate)].filter
          hasUrlB).filter (fun x => strLower (x.ext.getD "") = "mp4")) ∧
    (∃ c, selectFormat (mkStreamer false none (some "mp4") "high")
        [({ url := some "u1", ext := some "webm", acodec := some "opus", abr := some 300 } : Candidate),
         ({ url := some "u2", ext := some "mp4", acodec := some "aac", abr := some 10 } : Candidate)] =
        some c ∧
      c ∈ ([({ url := some "u1", ext := some "webm", acodec := some "opus", abr := some 300 } : Candidate),
            ({ url := some "u2", ext := some "mp4", acodec := some "aac", abr := some 10 } : Candidate)].filter
              hasUrlB).filter (fun x => strLower (x.ext.getD "") = "mp4")) :=
  ⟨by decide,
   (c4_container_filter_amended (mkStreamer false none (some "mp4") "high") _ "mp4"
       rfl (by decide)).2.2 (by decide)⟩

/-- Counterexample to claim C4 as stated: the same candidate list under
the overrides mp4 and MP4 retains different sets, because only the
candidate extension is lower-cased; the upper-cased override retains
nothing and selection falls through to the audio rule. -/
theorem c4_container_filter_counterexample :
    (([({ url := some "u1", ext := some "webm", acodec := some "opus", abr := some 300 } : Candidate),
       ({ url := some "u2", ext := some "mp4", acodec := some "aac", abr := some 10 } : Candidate)].filter
         hasUrlB).filter (fun x => strLower (x.ext.getD "") = "mp4")) =
      [{ url := some "u2", ext := some "mp4", acodec := some "aac", abr := some 10 }] ∧
    (([({ url := some "u1", ext := some "webm", acodec := some "opus", abr := some 300 } : Candidate),
       ({ url := some "u2", ext := some "mp4", acodec := some "aac", abr := some 10 } : Candidate)].filter
         hasUrlB).filter (fun x => strLower (x.ext.getD "") = "MP4")) = [] ∧
    selectFormat (mkStreamer false none (some "mp4") "high")
      [({ url := some "u1", ext := some "webm", acodec := some "opus", abr := some 300 } : Candidate),
       ({ url := some "u2", ext := some "mp4", acodec := some "aac", abr := some 10 } : Candidate)] =
      some { url := some "u2", ext := some "mp4", acodec := some "aac", abr := some 10 } ∧
    selectFormat (mkStreamer false none (some "MP4") "high")
      [({ url := some "u1", ext := some "webm", acodec := some "opus", abr := some 300 } : Candidate),
       ({ url := some "u2", ext := some "mp4", acodec := some "aac", abr := some 10 } : Candidate)] =
      some { url := some "u1", ext := some "webm", acodec := some "opus", abr := some 300 } ∧
    ({ url := some "u1", ext := some "webm", acodec := some "opus", abr := some 300 } : Candidate) ≠
      { url := some "u2", ext := some "mp4", acodec := some "aac", abr := some 10 } := by
  decide

/-- Claim C5, amended: when the container filter retains candidates and
the video-container ranking branch yields nothing, selection returns
the first retained candidate whose audio codec field is not the string
none, where an absent field also qualifies; only when every retained
candidate carries the codec string none does it return the first
retained candidate unconditionally. -/
theorem c5_container_audio_amended (s : Streamer) (cands : List Candidate) (pf : String)
    (hpf : s.preferred_format = some pf) (hemp : pf ≠ "")
    (hret : (cands.filter hasUrlB).filter (fun x => strLower (x.ext.getD "") = pf) ≠ [])
    (hva : pf = "mp4" →
      ((cands.filter hasUrlB).filter (fun x => strLower (x.ext.getD "") = pf)).filter
        vaCapableB = []) :
    (∃ pre c post,
      (cands.filter hasUrlB).filter (fun x => strLower (x.ext.getD "") = pf) =
        pre ++ c :: post ∧
      (∀ x ∈ pre, x.acodec = some "none") ∧ c.acodec ≠ some "none" ∧
      selectFormat s cands = some c) ∨
    ((∀ x ∈ (cands.filter hasUrlB).filter (fun x => strLower (x.ext.getD "") = pf),
        x.acodec = some "none") ∧
      selectFormat s cands =
        ((cands.filter hasUrlB).filter (fun x => strLower (x.ext.getD "") = pf)).head?) := by
  have hfe : cands.filter hasUrlB ≠ [] := by
    intro hnil
    rw [hnil] at hret
    simp at hret
  have harm := containerPick_audio_arm hpf hemp hret hva
  have hsel : selectFormat s cands = containerPick s (cands.filter hasUrlB) := by
    rw [selectFormat, if_neg (by simpa [List.isEmpty_iff] using hfe)]
    cases hcp : containerPick s (cands.filter hasUrlB) with
    | some d => rfl
    | none =>
      rw [hcp] at harm
      cases hf : ((cands.filter hasUrlB).filter
          (fun x => strLower (x.ext.getD "") = pf)).find?
          (fun c => decide (c.acodec ≠ some "none")) with
      | some d => rw [hf] at harm; simp at harm
      | none =>
        rw [hf] at harm
        obtain ⟨a, ha⟩ := head?_some_of_ne_nil hret
        rw [ha] at harm
        simp at harm
  cases hf : ((cands.filter hasUrlB).filter
      (fun x => strLower (x.ext.getD "") = pf)).find?
      (fun c => decide (c.acodec ≠ some "none")) with
  | some c =>
    left
    obtain ⟨pre, post, hsplit, hpre, hpc⟩ := find?_split _ hf
    refine ⟨pre, c, post, hsplit, ?_, ?_, ?_⟩
    · intro x hx
      have := hpre x hx
      simpa using this
    · simpa using hpc
    · rw [hsel, harm, hf]
  | none =>
    right
    constructor
    · intro x hx
      have := List.find?_eq_none.mp hf x hx
      simpa using this
    · rw [hsel, harm, hf]

/-- Witness for claim C5 with a retained m4a set whose first entry has
the codec string none and whose second is audio-capable. -/
theorem c5_container_audio_amended_witness :
    (([({ url := some "u1", ext := some "m4a", acodec := some "none" } : Candidate),
       ({ url := some "u2", ext := some "m4a", acodec := some "aac" } : Candidate)].filter
         hasUrlB).filter (fun x => strLower (x.ext.getD "") = "m4a") ≠ []) ∧
    ((∃ pre c post,
      ([({ url := some "u1", ext := some "m4a", acodec := some "none" } : Candidate),
        ({ url := some "u2", ext := some "m4a", acodec := some "aac" } : Candidate)].filter
          hasUrlB).filter (fun x => strLower (x.ext.getD "") = "m4a") =
        pre ++ c :: post ∧
      (∀ x ∈ pre, x.acodec = some "none") ∧ c.acodec ≠ some "none" ∧
      selectFormat (mkStreamer false none (some "m4a") "high")
        [({ url := some "u1", ext := some "m4a", acodec := some "none" } : Candidate),
         ({ url := some "u2", ext := some "m4a", acodec := some "aac" } : Candidate)] = some c) ∨
    ((∀ x ∈ ([({ url := some "u1", ext := some "m4a", acodec := some "none" } : Candidate),
              ({ url := some "u2", ext := some "m4a", acodec := some "aac" } : Candidate)].filter
               hasUrlB).filter (fun x => strLower (x.ext.getD "") = "m4a"),
        x.acodec = some "none") ∧
      selectFormat (mkStreamer false none (some "m4a") "high")
        [({ url := some "u1", ext := some "m4a", acodec := some "none" } : Candidate),
         ({ url := some "u2", ext := some "m4a", acodec := some "aac" } : Candidate)] =
        (([({ url := some "u1", ext := some "m4a", acodec := some "none" } : Candidate),
           ({ url := some "u2", ext := some "m4a", acodec := some "aac" } : Candidate)].filter
             hasUrlB).filter (fun x => strLower (x.ext.getD "") = "m4a")).head?)) :=
  ⟨by decide,
   c5_container_audio_amended (mkStreamer false none (some "m4a") "high") _ "m4a"
     rfl (by decide) (by decide) (by decide)⟩

/-- Counterexample to claim C5 as stated: the first retained candidate
has an absent audio codec field, which is not audio-capable in the
data-model sense, yet selection returns it instead of the later
audio-capable candidate. -/
theorem c5_container_audio_counterexample :
    selectFormat (mkStreamer false none (some "m4a") "high")
      [({ url := some "u1", ext := some "m4a", vcodec := some "avc1" } : Candidate),
       ({ url := some "u2", ext := some "m4a", acodec := some "aac" } : Candidate)] =
      some { url := some "u1", ext := some "m4a", vcodec := some "avc1" } ∧
    audioCapableB { url := some "u1", ext := some "m4a", vcodec := some "avc1" } = false ∧
    audioCapableB { url := some "u2", ext := some "m4a", acodec := some "aac" } = true ∧
    ({ url := some "u2", ext := some "m4a", acodec := some "aac" } : Candidate) ∈
      ([({ url := some "u1", ext := some "m4a", vcodec := some "avc1" } : Candidate),
        ({ url := some "u2", ext := some "m4a", acodec := some "aac" } : Candidate)].filter
          hasUrlB).filter (fun x => strLower (x.ext.getD "") = "m4a") := by
  decide

/-- Claim C2, amended: for a url-bearing list with some audio-capable
candidate and no container override, audio selection returns an
audio-capable member whose average bitrate reaches every threshold that
some candidate satisfies; when no candidate satisfies any threshold,
the result is the codec-preference pick over the full audio-capable
set, not necessarily the globally highest-bitrate candidate. -/
theorem c2_audio_selection_amended (s : Streamer) (cands : List Candidate)
    (hcat : s.profile ∈ catalogProfiles)
    (hpv : s.prefer_video = false) (hpf : s.preferred_format = none)
    (hurl : ∀ c ∈ cands, hasUrl c)
    (hne : ∃ c ∈ cands, audioCapableB c = true) :
    ∃ c, selectFormat s cands = some c ∧ c ∈ cands ∧ audioCapableB c = true ∧
      (∀ t ∈ s.profile.audio_thresholds,
        (∃ x ∈ cands, audioCapableB x = true ∧ (t : ℚ) ≤ x.abr.getD 0) →
        (t : ℚ) ≤ c.abr.getD 0) ∧
      ((∀ t ∈ s.profile.audio_thresholds,
          ∀ x ∈ cands, audioCapableB x = true → ¬ ((t : ℚ) ≤ x.abr.getD 0)) →
        specCodecPick s.profile (cands.filter audioCapableB) c) := by
  obtain ⟨w, hw, hwa⟩ := hne
  have hfilter : cands.filter hasUrlB = cands :=
    List.filter_eq_self.mpr (fun a ha => hurl a ha)
  have hcne : cands ≠ [] := by
    rintro rfl
    simp at hw
  have hfe : cands.filter hasUrlB ≠ [] := by rw [hfilter]; exact hcne
  have heq := selectFormat_after_container hfe (containerPick_of_pf_none hpf)
  rw [hfilter] at heq
  have heq2 : selectFormat s cands = selectAudioCandidate s.profile cands := by
    rw [heq, hpv]
    simp
  have hpoolne : cands.filter audioCapableB ≠ [] := by
    intro hnil
    have hmem : w ∈ cands.filter audioCapableB := List.mem_filter.mpr ⟨hw, hwa⟩
    rw [hnil] at hmem
    simp at hmem
  have hpoolsub : ∀ x, x ∈ cands.filter audioCapableB ↔
      (x ∈ cands ∧ audioCapableB x = true) := fun x => List.mem_filter
  have hsorted := catalog_thresholds_sorted s.profile hcat
  rw [selectAudioCandidate, if_neg (by simpa [List.isEmpty_iff] using hpoolne)] at heq2
  cases hwalk : audioThresholdWalk s.profile (cands.filter audioCapableB)
      s.profile.audio_thresholds with
  | some c =>
    rw [hwalk] at heq2
    obtain ⟨pre, t, post, hsplit, hpre, hpick⟩ := audioThresholdWalk_sound hwalk
    have hcmem : c ∈ (cands.filter audioCapableB).filter
        (fun x => decide ((t : ℚ) ≤ x.abr.getD 0)) := preferAudioCodecs_mem hpick
    obtain ⟨hcpool, hcabr⟩ := List.mem_filter.mp hcmem
    have hcabr' : (t : ℚ) ≤ c.abr.getD 0 := of_decide_eq_true hcabr
    obtain ⟨hccands, hcaud⟩ := List.mem_filter.mp hcpool
    refine ⟨c, heq2, hccands, hcaud, ?_, ?_⟩
    · intro t2 ht2 ⟨x, hx, hxa, hxb⟩
      rw [hsplit] at ht2
      rcases List.mem_append.mp ht2 with htpre | htrest
      · exfalso
        have hx2 : x ∈ (cands.filter audioCapableB).filter
            (fun y => decide ((t2 : ℚ) ≤ y.abr.getD 0)) :=
          List.mem_filter.mpr ⟨List.mem_filter.mpr ⟨hx, hxa⟩, decide_eq_true hxb⟩
        rw [hpre t2 htpre] at hx2
        simp at hx2
      · rcases List.mem_cons.mp htrest with rfl | htpost
        · exact hcabr'
        · have hpair : List.Pairwise (fun a b => b ≤ a) (t :: post) := by
            rw [hsplit] at hsorted
            exact (List.pairwise_append.mp hsorted).2.1
          have hle : t2 ≤ t := (List.pairwise_cons.mp hpair).1 t2 htpost
          exact le_trans (by exact_mod_cast hle) hcabr'
    · intro hnone
      exfalso
      have ht : t ∈ s.profile.audio_thresholds := by
        rw [hsplit]
        exact List.mem_append_right pre (List.mem_cons_self t post)
      exact hnone t ht c hccands hcaud hcabr'
  | none =>
    rw [hwalk] at heq2
    obtain ⟨c, hpick⟩ := @preferAudioCodecs_isSome s.profile (cands.filter audioCapableB) hpoolne
    rw [hpick] at heq2
    have hspec := preferAudioCodecs_spec hpick
    obtain ⟨hcpool, hcaud⟩ := List.mem_filter.mp hspec.1
    refine ⟨c, heq2, hcpool, hcaud, ?_, fun _ => hspec⟩
    intro t2 ht2 ⟨x, hx, hxa, hxb⟩
    exfalso
    have hx2 : x ∈ (cands.filter audioCapableB).filter
        (fun y => decide ((t2 : ℚ) ≤ y.abr.getD 0)) :=
      List.mem_filter.mpr ⟨List.mem_filter.mpr ⟨hx, hxa⟩, decide_eq_true hxb⟩
    rw [audioThresholdWalk_none hwalk t2 ht2] at hx2
    simp at hx2

/-- Witness for claim C2 at the concrete scenario with two candidates
at 130 kbps: the 128 threshold is met and the opus candidate wins. -/
theorem c2_audio_selection_amended_witness :
    (∃ c ∈ [({ url := some "x", acodec := some "aac", abr := some 130 } : Candidate),
            ({ url := some "y", acodec := some "opus", abr := some 130 } : Candidate)],
      audioCapableB c = true) ∧
    (∃ c, selectFormat (mkStreamer false none none "high")
        [({ url := some "x", acodec := some "aac", abr := some 130 } : Candidate),
         ({ url := some "y", acodec := some "opus", abr := some 130 } : Candidate)] = some c ∧
      c ∈ [({ url := some "x", acodec := some "aac", abr := some 130 } : Candidate),
           ({ url := some "y", acodec := some "opus", abr := some 130 } : Candidate)] ∧
      audioCapableB c = true ∧
      (∀ t ∈ (mkStreamer false none none "high").profile.audio_thresholds,
        (∃ x ∈ [({ url := some "x", acodec := some "aac", abr := some 130 } : Candidate),
                ({ url := some "y", acodec := some "opus", abr := some 130 } : Candidate)],
          audioCapableB x = true ∧ (t : ℚ) ≤ x.abr.getD 0) →
        (t : ℚ) ≤ c.abr.getD 0) ∧
      ((∀ t ∈ (mkStreamer false none none "high").profile.audio_thresholds,
          ∀ x ∈ [({ url := some "x", acodec := some "aac", abr := some 130 } : Candidate),
                 ({ url := some "y", acodec := some "opus", abr := some 130 } : Candidate)],
          audioCapableB x = true → ¬ ((t : ℚ) ≤ x.abr.getD 0)) →
        specCodecPick (mkStreamer false none none "high").profile
          ([({ url := some "x", acodec := some "aac", abr := some 130 } : Candidate),
            ({ url := some "y", acodec := some "opus", abr := some 130 } : Candidate)].filter
            audioCapableB) c)) :=
  ⟨by decide,
   c2_audio_selection_amended (mkStreamer false none none "high") _
     (by decide) rfl rfl (by decide) (by decide)⟩

/-- Counterexample to claim C2 as stated: with no threshold met, the
selector returns the opus candidate at 50 kbps although the aac
candidate at 100 kbps has the globally highest average bitrate. -/
theorem c2_audio_selection_counterexample :
    selectFormat (mkStreamer false none none "high")
      [({ url := some "u1", acodec := some "aac", abr := some 100 } : Candidate),
       ({ url := some "u2", acodec := some "opus", abr := some 50 } : Candidate)] =
      some { url := some "u2", acodec := some "opus", abr := some 50 } ∧
    (∀ t ∈ (mkStreamer false none none "high").profile.audio_thresholds,
      ∀ x ∈ [({ url := some "u1", acodec := some "aac", abr := some 100 } : Candidate),
             ({ url := some "u2", acodec := some "opus", abr := some 50 } : Candidate)],
        ¬ ((t : ℚ) ≤ x.abr.getD 0)) ∧
    audioCapableB { url := some "u1", acodec := some "aac", abr := some 100 } = true ∧
    (({ url := some "u2", acodec := some "opus", abr := some 50 } : Candidate).abr.getD 0 <
      ({ url := some "u1", acodec := some "aac", abr := some 100 } : Candidate).abr.getD 0) := by
  decide

/-- Claim C6: the video tier walk, without an override, tries tiers in
profile order; matching is exactly the specification predicate (height
floor with absent height failing a positive floor, fps floor when set
with absent fps failing); the first tier with a non-empty match set
wins and the best candidate by height then total bitrate is returned. -/
theorem c6_video_tier_walk (s : Streamer) (cands : List Candidate)
    (hcat : s.profile ∈ catalogProfiles)
    (hpv : s.prefer_video = true) (hpf : s.preferred_format = none)
    (hvq : s.video_quality = "")
    (pre post : List VideoRequirement) (r : VideoRequirement)
    (hreq : s.profile.video_requirements = pre ++ r :: post)
    (hpre : ∀ r' ∈ pre, ∀ c ∈ cands, hasUrl c → vaCapableB c = true → ¬ specMeetsTier c r')
    (hr : ∃ c ∈ cands, hasUrl c ∧ vaCapableB c = true ∧ specMeetsTier c r) :
    ∃ c, selectFormat s cands = some c ∧ c ∈ cands ∧ hasUrl c ∧ vaCapableB c = true ∧
      specMeetsTier c r ∧
      ∀ x ∈ cands, hasUrl x → vaCapableB x = true → specMeetsTier x r →
        natRatLe (videoScore x) (videoScore c) := by
  have htvp : targetVideoProfile s = s.profile := by
    rw [targetVideoProfile]
    simp [hvq]
  have hcap : videoQualityCap s (targetVideoProfile s) = none := by
    rw [videoQualityCap, if_pos hvq]
  have hfps : ∀ q ∈ s.profile.video_requirements, q.min_fps ≠ some 0 :=
    catalog_no_zero_fps s.profile hcat
  have hrfps : r.min_fps ≠ some 0 := by
    refine hfps r ?_
    rw [hreq]
    exact List.mem_append_right pre (List.mem_cons_self r post)
  have hmemiff : ∀ x, x ∈ (cands.filter hasUrlB).filter vaCapableB ↔
      (x ∈ cands ∧ hasUrlB x = true ∧ vaCapableB x = true) := by
    intro x
    constructor
    · intro hx
      obtain ⟨hx1, hx2⟩ := List.mem_filter.mp hx
      obtain ⟨hx3, hx4⟩ := List.mem_filter.mp hx1
      exact ⟨hx3, hx4, hx2⟩
    · rintro ⟨h1, h2, h3⟩
      exact List.mem_filter.mpr ⟨List.mem_filter.mpr ⟨h1, h2⟩, h3⟩
  have hprefilter : ∀ r' ∈ pre,
      ((cands.filter hasUrlB).filter vaCapableB).filter
        (fun x => meetsVideoRequirement x r') = [] := by
    intro r' hr'
    have hr'fps : r'.min_fps ≠ some 0 := by
      refine hfps r' ?_
      rw [hreq]
      exact List.mem_append_left _ hr'
    refine List.filter_eq_nil_iff.mpr (fun a ha => ?_)
    obtain ⟨ha1, ha2, ha3⟩ := (hmemiff a).mp ha
    intro hmeets
    exact hpre r' hr' a ha1 ha2 ha3 ((meetsVideoRequirement_iff_spec hr'fps).mp hmeets)
  have hrfilter : ((cands.filter hasUrlB).filter vaCapableB).filter
      (fun x => meetsVideoRequirement x r) ≠ [] := by
    obtain ⟨w, hw, hwu, hwva, hwspec⟩ := hr
    intro hnil
    have hmem : w ∈ ((cands.filter hasUrlB).filter vaCapableB).filter
        (fun x => meetsVideoRequirement x r) := by
      refine List.mem_filter.mpr ⟨(hmemiff w).mpr ⟨hw, hwu, hwva⟩, ?_⟩
      exact (meetsVideoRequirement_iff_spec hrfps).mpr hwspec
    rw [hnil] at hmem
    simp at hmem
  have hreq' : (targetVideoProfile s).video_requirements = pre ++ r :: post := by
    rw [htvp, hreq]
  obtain ⟨c, hvc, hcmem, hcmax⟩ := selectVideoCandidate_tier hreq' hprefilter hrfilter
  rw [hcap, capSelected_no_cap] at hcmem hcmax
  obtain ⟨hcpool, hcmeets⟩ := List.mem_filter.mp hcmem
  obtain ⟨hc1, hc2, hc3⟩ := (hmemiff c).mp hcpool
  have hfe : cands.filter hasUrlB ≠ [] := by
    intro hnil
    have : c ∈ cands.filter hasUrlB := List.mem_filter.mpr ⟨hc1, hc2⟩
    rw [hnil] at this
    simp at this
  have heq := selectFormat_after_container hfe (containerPick_of_pf_none hpf)
  rw [hpv] at heq
  simp only [if_true] at heq
  rw [hvc] at heq
  refine ⟨c, heq, hc1, hc2, hc3, (meetsVideoRequirement_iff_spec hrfps).mp hcmeets, ?_⟩
  intro x hx hxu hxva hxspec
  have hxmem : x ∈ ((cands.filter hasUrlB).filter vaCapableB).filter
      (fun y => meetsVideoRequirement y r) := by
    refine List.mem_filter.mpr ⟨(hmemiff x).mpr ⟨hx, hxu, hxva⟩, ?_⟩
    exact (meetsVideoRequirement_iff_spec hrfps).mpr hxspec
  exact hcmax x hxmem

/-- Witness for claim C6 at the concrete scenario with 720p30 and
1080p30 candidates under the high profile: the 1080p tier without an
fps floor is the first non-empty tier and the 1080p candidate wins. -/
theorem c6_video_tier_walk_witness :
    ((mkStreamer true none none "high").profile.video_requirements =
      [⟨1080, some 60⟩] ++ (⟨1080, none⟩ : VideoRequirement) ::
        [⟨720, some 60⟩, ⟨720, none⟩]) ∧
    (∃ c, selectFormat (mkStreamer true none none "high")
        [({ url := some "x", vcodec := some "v1", acodec := some "a1",
            height := some 720, fps := some 30 } : Candidate),
         ({ url := some "y", vcodec := some "v2", acodec := some "a2",
            height := some 1080, fps := some 30 } : Candidate)] = some c ∧
      c ∈ [({ url := some "x", vcodec := some "v1", acodec := some "a1",
              height := some 720, fps := some 30 } : Candidate),
           ({ url := some "y", vcodec := some "v2", acodec := some "a2",
              height := some 1080, fps := some 30 } : Candidate)] ∧
      hasUrl c ∧ vaCapableB c = true ∧
      specMeetsTier c (⟨1080, none⟩ : VideoRequirement) ∧
      ∀ x ∈ [({ url := some "x", vcodec := some "v1", acodec := some "a1",
                height := some 720, fps := some 30 } : Candidate),
             ({ url := some "y", vcodec := some "v2", acodec := some "a2",
                height := some 1080, fps := some 30 } : Candidate)],
        hasUrl x → vaCapableB x = true → specMeetsTier x (⟨1080, none⟩ : VideoRequirement) →
          natRatLe (videoScore x) (videoScore c)) :=
  ⟨by decide,
   c6_video_tier_walk (mkStreamer true none none "high") _
     (by decide) rfl rfl rfl [⟨1080, some 60⟩] [⟨720, some 60⟩, ⟨720, none⟩]
     (⟨1080, none⟩ : VideoRequirement) (by decide)
     (by decide) (by decide)⟩

/-- Within-cap test lifted to the optional cap: the falsy caps none and
zero keep every candidate, matching _apply_quality_cap. -/
def withinCapOpt (c : Candidate) : Option Nat → Bool
  | none => true
  | some k => if k = 0 then true else withinQualityCap c.height k

lemma applyQualityCap_eq_filter (l : List Candidate) (cap : Option Nat) :
    applyQualityCap l cap = l.filter (fun x => withinCapOpt x cap) := by
  cases cap with
  | none =>
    simp [applyQualityCap, withinCapOpt]
  | some k =>
    by_cases hk : k = 0
    · simp [applyQualityCap, withinCapOpt, hk]
    · simp [applyQualityCap, withinCapOpt, hk]

/-- Claim C1, amended: with video intent and an override naming a
catalog profile, the resolution cap is the min_height of the first
requirement tier having one, which for the catalog profiles is the
largest, not the smallest, min_height (1080, 720 and 480 for high,
medium and data_saving); within the winning tier, candidates above the
cap are dropped before ranking unless that empties the match set, in
which case the cap is ignored for that tier. -/
theorem c1_resolution_cap_amended (s : Streamer) (cands : List Candidate)
    (hpv : s.prefer_video = true) (hpf : s.preferred_format = none)
    (hvq : s.video_quality ∈ (["high", "medium", "data_saving"] : List String))
    (pre post : List VideoRequirement) (r : VideoRequirement)
    (hreq : (targetVideoProfile s).video_requirements = pre ++ r :: post)
    (hpre : ∀ r' ∈ pre,
      ((cands.filter hasUrlB).filter vaCapableB).filter
        (fun x => meetsVideoRequirement x r') = [])
    (hr : ((cands.filter hasUrlB).filter vaCapableB).filter
        (fun x => meetsVideoRequirement x r) ≠ []) :
    videoQualityCap s (targetVideoProfile s) =
      ((targetVideoProfile s).video_requirements.find?
        (fun q => decide (q.min_height ≠ 0))).map (fun q => q.min_height) ∧
    (s.video_quality = "high" → videoQualityCap s (targetVideoProfile s) = some 1080) ∧
    (s.video_quality = "medium" → videoQualityCap s (targetVideoProfile s) = some 720) ∧
    (s.video_quality = "data_saving" →
      videoQualityCap s (targetVideoProfile s) = some 480) ∧
    ∃ c, selectFormat s cands = some c ∧
      c ∈ ((cands.filter hasUrlB).filter vaCapableB).filter
        (fun x => meetsVideoRequirement x r) ∧
      ((((cands.filter hasUrlB).filter vaCapableB).filter
          (fun x => meetsVideoRequirement x r)).filter
          (fun x => withinCapOpt x (videoQualityCap s (targetVideoProfile s))) ≠ [] →
        withinCapOpt c (videoQualityCap s (targetVideoProfile s)) = true ∧
        ∀ x ∈ (((cands.filter hasUrlB).filter vaCapableB).filter
            (fun x => meetsVideoRequirement x r)).filter
            (fun x => withinCapOpt x (videoQualityCap s (targetVideoProfile s))),
          natRatLe (videoScore x) (videoScore c)) ∧
      ((((cands.filter hasUrlB).filter vaCapableB).filter
          (fun x => meetsVideoRequirement x r)).filter
          (fun x => withinCapOpt x (videoQualityCap s (targetVideoProfile s))) = [] →
        ∀ x ∈ ((cands.filter hasUrlB).filter vaCapableB).filter
            (fun x => meetsVideoRequirement x r),
          natRatLe (videoScore x) (videoScore c)) := by
  have hvqne : s.video_quality ≠ "" := by
    intro hemp
    rw [hemp] at hvq
    exact absurd hvq (by decide)
  refine ⟨?_, ?_, ?_, ?_, ?_⟩
  · rw [videoQualityCap, if_neg hvqne]
    cases hfind : (targetVideoProfile s).video_requirements.find?
        (fun q => decide (q.min_height ≠ 0)) with
    | some q => simp
    | none => simp
  · intro h
    rw [videoQualityCap, if_neg hvqne, targetVideoProfile, if_pos (by simp [h]), h]
    decide
  · intro h
    rw [videoQualityCap, if_neg hvqne, targetVideoProfile, if_pos (by simp [h]), h]
    decide
  · intro h
    rw [videoQualityCap, if_neg hvqne, targetVideoProfile, if_pos (by simp [h]), h]
    decide
  · obtain ⟨c, hvc, hcmem, hcmax⟩ := selectVideoCandidate_tier hreq hpre hr
    have hfe : cands.filter hasUrlB ≠ [] := by
      intro hnil
      rw [hnil] at hr
      simp at hr
    have heq := selectFormat_after_container hfe (containerPick_of_pf_none hpf)
    rw [hpv] at heq
    simp only [if_true] at heq
    rw [hvc] at heq
    have hcs : capSelected ((cands.filter hasUrlB).filter vaCapableB)
        (videoQualityCap s (targetVideoProfile s)) r =
        if (((cands.filter hasUrlB).filter vaCapableB).filter
            (fun x => meetsVideoRequirement x r)).filter
            (fun x => withinCapOpt x (videoQualityCap s (targetVideoProfile s))) = []
        then ((cands.filter hasUrlB).filter vaCapableB).filter
          (fun x => meetsVideoRequirement x r)
        else (((cands.filter hasUrlB).filter vaCapableB).filter
            (fun x => meetsVideoRequirement x r)).filter
            (fun x => withinCapOpt x (videoQualityCap s (targetVideoProfile s))) := by
      unfold capSelected
      dsimp only
      rw [applyQualityCap_eq_filter]
      by_cases hnil : (((cands.filter hasUrlB).filter vaCapableB).filter
          (fun x => meetsVideoRequirement x r)).filter
          (fun x => withinCapOpt x (videoQualityCap s (targetVideoProfile s))) = []
      · rw [if_pos (by rw [hnil]; rfl), if_pos hnil]
      · rw [if_neg (by simpa [List.isEmpty_iff] using hnil), if_neg hnil]
    rw [hcs] at hcmem hcmax
    by_cases hnil : (((cands.filter hasUrlB).filter vaCapableB).filter
        (fun x => meetsVideoRequirement x r)).filter
        (fun x => withinCapOpt x (videoQualityCap s (targetVideoProfile s))) = []
    · rw [if_pos hnil] at hcmem hcmax
      refine ⟨c, heq, hcmem, ?_, ?_⟩
      · intro hcontra
        exact absurd hnil hcontra
      · intro _
        exact fun x hx => hcmax x hx
    · rw [if_neg hnil] at hcmem hcmax
      refine ⟨c, heq, (List.mem_filter.mp hcmem).1, ?_, ?_⟩
      · intro _
        exact ⟨(List.mem_filter.mp hcmem).2, fun x hx => hcmax x hx⟩
      · intro hcontra
        exact absurd hcontra hnil

/-- Witness for claim C1 at the medium override with candidates at
360p, 1080p and 720p: the cap is 720 and the 720p tier yields a pick
from its match set. -/
theorem c1_resolution_cap_amended_witness :
    ((targetVideoProfile (mkStreamer true (some "medium") none "high")).video_requirements =
      [] ++ (⟨720, none⟩ : VideoRequirement) :: [⟨480, some 60⟩, ⟨480, none⟩]) ∧
    videoQualityCap (mkStreamer true (some "medium") none "high")
      (targetVideoProfile (mkStreamer true (some "medium") none "high")) = some 720 ∧
    (∃ c, selectFormat (mkStreamer true (some "medium") none "high")
        [({ url := some "low-stream", height := some 360, vcodec := some "avc1", acodec := some "aac" } : Candidate),
         ({ url := some "high-stream", height := some 1080, vcodec := some "avc1", acodec := some "aac" } : Candidate),
         ({ url := some "mid-stream", height := some 720, vcodec := some "avc1", acodec := some "aac" } : Candidate)] =
        some c ∧
      c ∈ (([({ url := some "low-stream", height := some 360, vcodec := some "avc1", acodec := some "aac" } : Candidate),
             ({ url := some "high-stream", height := some 1080, vcodec := some "avc1", acodec := some "aac" } : Candidate),
             ({ url := some "mid-stream", height := some 720, vcodec := some "avc1", acodec := some "aac" } : Candidate)].filter
               hasUrlB).filter vaCapableB).filter
          (fun x => meetsVideoRequirement x (⟨720, none⟩ : VideoRequirement))) := by
  have h := c1_resolution_cap_amended (mkStreamer true (some "medium") none "high")
    [({ url := some "low-stream", height := some 360, vcodec := some "avc1", acodec := some "aac" } : Candidate),
     ({ url := some "high-stream", height := some 1080, vcodec := some "avc1", acodec := some "aac" } : Candidate),
     ({ url := some "mid-stream", height := some 720, vcodec := some "avc1", acodec := some "aac" } : Candidate)]
    rfl rfl (by decide) [] [⟨480, some 60⟩, ⟨480, none⟩] (⟨720, none⟩ : VideoRequirement)
    (by decide) (by decide) (by decide)
  refine ⟨by decide, h.2.2.1 (by decide), ?_⟩
  obtain ⟨c, hc1, hc2, -, -⟩ := h.2.2.2.2
  exact ⟨c, hc1, hc2⟩

/-- Counterexample to claim C1 as stated: under the medium override the
cap used is 720, the min_height of the first tier, while the smallest
min_height among the tiers is 480; with candidates at 600p60 and 480p60
both matching the 480p60 tier, selection returns the 600p candidate,
which a 480 cap would have dropped without emptying the tier. -/
theorem c1_resolution_cap_counterexample :
    videoQualityCap (mkStreamer true (some "medium") none "high")
      (targetVideoProfile (mkStreamer true (some "medium") none "high")) = some 720 ∧
    ((targetVideoProfile (mkStreamer true (some "medium") none "high")).video_requirements.map
      (fun q => q.min_height)) = [720, 480, 480] ∧
    ((720 : Nat) ≠ 480) ∧
    selectFormat (mkStreamer true (some "medium") none "high")
      [({ url := some "u1", vcodec := some "avc1", acodec := some "aac", height := some 600, fps := some 60, tbr := some 100 } : Candidate),
       ({ url := some "u2", vcodec := some "avc1", acodec := some "aac", height := some 480, fps := some 60, tbr := some 50 } : Candidate)] =
      some { url := some "u1", vcodec := some "avc1", acodec := some "aac", height := some 600, fps := some 60, tbr := some 100 } ∧
    meetsVideoRequirement
      { url := some "u1", vcodec := some "avc1", acodec := some "aac", height := some 600, fps := some 60, tbr := some 100 }
      (⟨720, none⟩ : VideoRequirement) = false ∧
    meetsVideoRequirement
      { url := some "u2", vcodec := some "avc1", acodec := some "aac", height := some 480, fps := some 60, tbr := some 50 }
      (⟨720, none⟩ : VideoRequirement) = false ∧
    meetsVideoRequirement
      { url := some "u1", vcodec := some "avc1", acodec := some "aac", height := some 600, fps := some 60, tbr := some 100 }
      (⟨480, some 60⟩ : VideoRequirement) = true ∧
    meetsVideoRequirement
      { url := some "u2", vcodec := some "avc1", acodec := some "aac", height := some 480, fps := some 60, tbr := some 50 }
      (⟨480, some 60⟩ : VideoRequirement) = true ∧
    withinQualityCap (some 600) 480 = false ∧
    withinQualityCap (some 480) 480 = true := by
  decide
